import Mathlib

set_option maxRecDepth 10000

/-!
# A verification model of the litegodb storage engine

Shallow embedding, in Lean 4, of the core storage components of the
`litegodb` repository: the freelist (`internal/storage/freelist/freelist.go`),
the paged disk manager (`internal/storage/disk/disk_manager.go`),
the B-Tree engine (`internal/storage/btree/btree.go`),
the write-ahead log (`internal/storage/kvstore/log.go`),
the table catalog (`internal/storage/catalog`),
the key-value store orchestrator (`internal/storage/kvstore/kvstore.go`),
and the transaction coordinator (`internal/storage/kvstore/transaction.go`).

Modelling conventions:
* Go strings and `[]byte` slices are byte lists (`GoStr := List Nat`,
  each element < 256 in every reachable value).
* Go `int32` values are `Int`s; serialization reduces them modulo `2^32`
  (little-endian, two's complement), mirroring `encoding/binary`.
* Go maps are association lists in insertion order.  Go's map iteration
  order is unspecified; the model fixes insertion order.  None of the
  statements below depend on that order beyond determinism.
* Functions that can panic in Go (index out of range, explicit `panic`)
  return `Option`/`none` on the panicking paths.
* Functions that return a Go `error` alongside mutations return the
  mutated state together with a success flag, since callers in this code
  base frequently ignore the error but keep the mutation.
-/

namespace LiteGoDB

/-- Go byte strings (`string` / `[]byte`): lists of byte values. -/
abbrev GoStr := List Nat

/-- `disk.PageSize`: fixed page size in bytes. -/
def PageSize : Nat := 4096

/-- Two's-complement normalisation of an `int32` to its unsigned
little-endian representation value. -/
def u32ofInt (x : Int) : Nat := (x % (2 ^ 32 : Nat)).toNat

/-- Signed value of an unsigned 32-bit number. -/
def i32ofU32 (u : Nat) : Int := if u < 2 ^ 31 then (u : Int) else (u : Int) - 2 ^ 32

/-- Little-endian 4-byte encoding of an `int32`, as written by
`binary.Write(buf, binary.LittleEndian, x)`. -/
def le4 (x : Int) : GoStr :=
  let m := u32ofInt x
  [m % 256, m / 256 % 256, m / 256 ^ 2 % 256, m / 256 ^ 3 % 256]

/-- Decoding of 4 little-endian bytes into a signed `int32`, as read by
`binary.Read(buf, binary.LittleEndian, &x)`. -/
def decodeI32 (b0 b1 b2 b3 : Nat) : Int :=
  i32ofU32 (b0 % 256 + 256 * (b1 % 256) + 256 ^ 2 * (b2 % 256) + 256 ^ 3 * (b3 % 256))

/-- `binary.Read` of an `int32` from a `bytes.Reader`: consumes exactly 4
bytes, errors (`none`) if fewer are available. -/
def readI32 : GoStr → Option (Int × GoStr)
  | b0 :: b1 :: b2 :: b3 :: rest => some (decodeI32 b0 b1 b2 b3, rest)
  | _ => none

/-- `binary.Read` of a single byte interpreted as a Go `bool`
(any non-zero byte is `true`). -/
def readBool : GoStr → Option (Bool × GoStr)
  | b :: rest => some (decide (b % 256 ≠ 0), rest)
  | _ => none

/-- One pass of `goRead`: the filled `n`-byte buffer (zero-padded when the
input runs out) together with the unread remainder. -/
def goReadAux : Nat → GoStr → GoStr × GoStr
  | 0, s => ([], s)
  | n + 1, [] => (List.replicate (n + 1) 0, [])
  | n + 1, b :: bs =>
    let p := goReadAux n bs
    (b :: p.1, p.2)

/-- `bytes.Reader.Read(make([]byte, n))` as used by `Catalog.Load` and
`btree.Deserialize`: returns `io.EOF` (here `none`) only when the reader is
already exhausted; otherwise fills up to `n` bytes, padding the rest of the
caller's zero-initialised buffer with zero bytes, and reports no error. -/
def goRead (n : Nat) (s : GoStr) : Option (GoStr × GoStr) :=
  if s.isEmpty then none else some (goReadAux n s)

/-- A disk page full of zero bytes (the content of an allocated-but-never
written region of the database file). -/
def zeroPage : GoStr := List.replicate PageSize 0

/-- Modelled from the spec: `disk.FilePage.SetData`/`Serialize`, whose
source file is not part of the snapshot.  Per §4.1 of the specification,
`WritePage` "pads or truncates the provided data to exactly PAGE_SIZE". -/
def fitPage (d : GoStr) : GoStr :=
  d.take PageSize ++ List.replicate (PageSize - d.length) 0

/-! ## Freelist (`internal/storage/freelist/freelist.go`) -/

/-- `freelist.Freelist`: a stack of free page ids (`pages []int32`). -/
structure Freelist where
  pages : List Int
  deriving Repr, DecidableEq

/-- `freelist.NewFreelist`. -/
def newFreelist : Freelist := ⟨[]⟩

/-- `Freelist.Add`: appends a page id to the stack. -/
def Freelist.add (f : Freelist) (id : Int) : Freelist := ⟨f.pages ++ [id]⟩

/-- `Freelist.GetFreePage`: pops the most recently added id; returns
`(0, false)` and leaves the list unchanged when empty. -/
def Freelist.getFreePage (f : Freelist) : (Int × Bool) × Freelist :=
  match f.pages.getLast? with
  | none => ((0, false), f)
  | some id => ((id, true), ⟨f.pages.dropLast⟩)

/-- `Freelist.Len`. -/
def Freelist.len (f : Freelist) : Nat := f.pages.length

/-! ## Paged disk manager (`internal/storage/disk/disk_manager.go`)

The database file is modelled page-granularly: `file` is the list of
pages currently on disk, each entry being the page's `PageSize` bytes.
All writes performed by this code base go through `WritePage` and are
page-aligned, so this is equivalent to the flat byte file. -/

/-- `disk.FileDiskManager`. -/
structure FileDiskManager where
  file : List GoStr
  fl : Freelist
  nextID : Int
  deriving Repr, DecidableEq

/-- `disk.NewFileDiskManager`: opens a file; the next page id is the file
size divided by `PageSize` (0 for an empty or freshly created file).
The freelist starts empty (it is not persisted anywhere). -/
def newFileDiskManager (file : List GoStr) : FileDiskManager :=
  ⟨file, newFreelist, (file.length : Int)⟩

/-- `FileDiskManager.AllocatePage`: pop the freelist if non-empty,
otherwise use and increment the next-id counter.  Returns the id of the
allocated page; the page is NOT written to the file. -/
def FileDiskManager.allocatePage (dm : FileDiskManager) : Int × FileDiskManager :=
  match dm.fl.getFreePage with
  | ((id, true), fl') => (id, { dm with fl := fl' })
  | ((_, false), _) => (dm.nextID, { dm with nextID := dm.nextID + 1 })

/-- `FileDiskManager.WritePage`: writes the page data (padded/truncated to
`PageSize`, see `fitPage`) at offset `id * PageSize`, zero-filling any gap
between the current end of file and that offset.  A negative id makes the
underlying `WriteAt` fail (`none`). -/
def FileDiskManager.writePage (dm : FileDiskManager) (id : Int) (data : GoStr) :
    Option FileDiskManager :=
  if id < 0 then none
  else
    let i := id.toNat
    let newFile :=
      if i < dm.file.length then dm.file.set i (fitPage data)
      else dm.file ++ List.replicate (i - dm.file.length) zeroPage ++ [fitPage data]
    some { dm with file := newFile }

/-- `FileDiskManager.ReadPage`: reads the `PageSize` bytes at offset
`id * PageSize`; fails (`none`) when the offset lies beyond end of file or
is negative. -/
def FileDiskManager.readPage (dm : FileDiskManager) (id : Int) : Option GoStr :=
  if id < 0 then none else dm.file.get? id.toNat

/-- `FileDiskManager.FreePage`: pushes the id onto the freelist. -/
def FileDiskManager.freePage (dm : FileDiskManager) (id : Int) : FileDiskManager :=
  { dm with fl := dm.fl.add id }

/-- `FileDiskManager.GetLastAllocatedPageID`. -/
def FileDiskManager.getLastAllocatedPageID (dm : FileDiskManager) : Int := dm.nextID - 1

/-! ## B-Tree engine (`internal/storage/btree/btree.go`)

The Go code mutates nodes through pointers; the model passes updated
nodes explicitly.  `t.root` reassignments that `merge` and
`ensureChildHasEnoughKeys` perform mid-recursion are tracked by the
`isRoot` flag and the root-position bookkeeping in `delRec`: a recursive
call returns the node that ends up as the root of the processed subtree.
Paths on which the Go code panics (slice index out of range, the explicit
`panic` in `merge`) yield `none`.  Recursive functions take a fuel
argument; every theorem below applies them with fuel exceeding the tree
height, so `none` never stands for fuel exhaustion in any statement. -/

/-- `btree.Node`: `id` is the page id, `values` are the stored Go strings
(the code only ever stores strings in the `interface{}` slots).  The
per-node `degree` field of the Go struct is never read by any algorithm
(they all use the tree-level degree) and is omitted. -/
inductive BNode where
  | mk (id : Int) (keys : List Int) (values : List GoStr) (children : List BNode)
      (isLeaf : Bool)

/-- Node id accessor. -/
def BNode.id : BNode → Int
  | .mk i _ _ _ _ => i

/-- Node keys accessor. -/
def BNode.keys : BNode → List Int
  | .mk _ k _ _ _ => k

/-- Node values accessor. -/
def BNode.values : BNode → List GoStr
  | .mk _ _ v _ _ => v

/-- Node children accessor. -/
def BNode.children : BNode → List BNode
  | .mk _ _ _ c _ => c

/-- Node leaf-flag accessor. -/
def BNode.isLeaf : BNode → Bool
  | .mk _ _ _ _ l => l

/-- Functional update of the fields of a node. -/
def BNode.withFields (n : BNode) (keys : List Int) (values : List GoStr)
    (children : List BNode) : BNode :=
  .mk n.id keys values children n.isLeaf

/-- Replace child `i` of a node. -/
def BNode.setChild (n : BNode) (i : Nat) (c : BNode) : BNode :=
  .mk n.id n.keys n.values (n.children.set i c) n.isLeaf

/-- `btree.BTree`: root node plus minimum degree. -/
structure BTree where
  root : BNode
  degree : Nat

/-- `btree.NewBTree`: degrees below 2 are rounded up to 2; the root starts
as an empty leaf (with the Go zero value `id = 0`). -/
def newBTree (degree : Nat) : BTree :=
  let d := if degree < 2 then 2 else degree
  ⟨.mk 0 [] [] [] true, d⟩

/-- The `for insertAt < len(keys) && keys[insertAt] < k` loop of
`splitChild` (and the `idx` loop of `delete`): number of leading keys
strictly below `k`. -/
def countLt (keys : List Int) (k : Int) : Nat :=
  (keys.takeWhile (fun x => decide (x < k))).length

/-- The `i := len(keys)-1; for i >= 0 && key < keys[i] { i-- }; i++` loop of
`insertNonFull`: index obtained by scanning from the right. -/
def goDescendIdx (keys : List Int) (key : Int) : Nat :=
  keys.length - (keys.reverse.takeWhile (fun x => decide (key < x))).length

/-- `list[idx] = v` with the Go panic (`none`) on an out-of-range index. -/
def trySet {α : Type} (l : List α) (idx : Nat) (v : α) : Option (List α) :=
  if idx < l.length then some (l.set idx v) else none

/-- `BTree.splitChild`: splits the full child at `childIndex` of `parent`,
promoting its median key into `parent`.  Mirrors the Go function; slice
accesses that would panic give `none`. -/
def splitChild (t : Nat) (parent : BNode) (childIndex : Nat) : Option BNode := do
  let child ← parent.children.get? childIndex
  let mid := t - 1
  let mk ← child.keys.get? mid
  let mv ← child.values.get? mid
  let newKeys := child.keys.drop (mid + 1)
  let newVals := child.values.drop (mid + 1)
  let newKids := if child.isLeaf then [] else child.children.drop (mid + 1)
  let child' := child.withFields (child.keys.take mid) (child.values.take mid)
    (if child.isLeaf then child.children else child.children.take (mid + 1))
  let newChild : BNode := .mk 0 newKeys newVals newKids child.isLeaf
  let insertAt := countLt parent.keys mk
  let parent' := parent.withFields
    (parent.keys.insertIdx insertAt mk)
    (parent.values.insertIdx insertAt mv)
    (((parent.children.set childIndex child').insertIdx (insertAt + 1) newChild))
  pure parent'

/-- One step of the duplicate-key scan of `insertNonFull` on a leaf:
index of the first key equal to `key`, if any. -/
def findEqIdx (keys : List Int) (key : Int) : Option Nat :=
  keys.findIdx? (fun x => decide (x = key))

/-- `BTree.insertNonFull` (fuel-indexed). -/
def insertNonFull (t : Nat) : Nat → BNode → Int → GoStr → Option BNode
  | 0, _, _, _ => none
  | fuel + 1, node, key, value =>
    if node.isLeaf then
      match findEqIdx node.keys key with
      | some idx => do
          let vs ← trySet node.values idx value
          pure (node.withFields node.keys vs node.children)
      | none =>
          let i := goDescendIdx node.keys key
          pure (node.withFields (node.keys.insertIdx i key)
            (node.values.insertIdx i value) node.children)
    else do
      let i := goDescendIdx node.keys key
      let childAtI ← node.children.get? i
      if childAtI.keys.length = 2 * t - 1 then do
        let node' ← splitChild t node i
        let ki ← node'.keys.get? i
        let i' := if key > ki then i + 1 else i
        let child ← node'.children.get? i'
        let child' ← insertNonFull t fuel child key value
        pure (node'.setChild i' child')
      else do
        let child' ← insertNonFull t fuel childAtI key value
        pure (node.setChild i child')

/-- `BTree.Insert` (fuel-indexed): pre-emptively splits a full root, then
descends with `insertNonFull`.  (The Go nil-value panic guard is outside
the model: values are always byte strings here.) -/
def btInsert (fuel : Nat) (tr : BTree) (key : Int) (value : GoStr) : Option BTree := do
  let t := tr.degree
  let root := tr.root
  if root.keys.length = 2 * t - 1 then do
    let newRoot : BNode := .mk 0 [] [] [root] false
    let newRoot' ← splitChild t newRoot 0
    let newRoot'' ← insertNonFull t fuel newRoot' key value
    pure { tr with root := newRoot'' }
  else do
    let root' ← insertNonFull t fuel root key value
    pure { tr with root := root' }

/-- `BTree.searchNode` (fuel-indexed): `some (some v)` when found,
`some none` when absent, `none` on fuel exhaustion or a panicking access. -/
def searchRec : Nat → BNode → Int → Option (Option GoStr)
  | 0, _, _ => none
  | fuel + 1, node, key =>
    let i := countLt node.keys key
    match node.keys.get? i with
    | some ki =>
      if ki = key then (node.values.get? i).map some
      else if node.isLeaf then some none
      else do
        let c ← node.children.get? i
        searchRec fuel c key
    | none =>
      if node.isLeaf then some none
      else do
        let c ← node.children.get? i
        searchRec fuel c key

/-- `BTree.Search`. -/
def btSearch (fuel : Nat) (tr : BTree) (key : Int) : Option (Option GoStr) :=
  searchRec fuel tr.root key

/-- `BTree.getPredecessor`: rightmost key/value of the subtree rooted at
`cur` (descends to a leaf first). -/
def getPredecessor : Nat → BNode → Option (Int × GoStr)
  | 0, _ => none
  | fuel + 1, cur =>
    if cur.isLeaf then do
      let k ← cur.keys.getLast?
      let v ← cur.values.getLast?
      pure (k, v)
    else do
      let c ← cur.children.getLast?
      getPredecessor fuel c

/-- `BTree.getSuccessor`: leftmost key/value of the subtree rooted at `cur`. -/
def getSuccessor : Nat → BNode → Option (Int × GoStr)
  | 0, _ => none
  | fuel + 1, cur =>
    if cur.isLeaf then do
      let k ← cur.keys.get? 0
      let v ← cur.values.get? 0
      pure (k, v)
    else do
      let c ← cur.children.get? 0
      getSuccessor fuel c

/-- `BTree.borrowFromLeft`: moves the separator key of `node` at
`idx - 1` down into child `idx` and the last key of the left sibling up. -/
def borrowFromLeft (node : BNode) (idx : Nat) : Option BNode := do
  let child ← node.children.get? idx
  let sibling ← node.children.get? (idx - 1)
  let sepK ← node.keys.get? (idx - 1)
  let sepV ← node.values.get? (idx - 1)
  let child' ←
    if child.isLeaf then
      pure (child.withFields (sepK :: child.keys) (sepV :: child.values) child.children)
    else do
      let lastC ← sibling.children.getLast?
      pure (child.withFields (sepK :: child.keys) (sepV :: child.values)
        (lastC :: child.children))
  let sibK ← sibling.keys.getLast?
  let sibV ← sibling.values.getLast?
  let sibling' := sibling.withFields sibling.keys.dropLast sibling.values.dropLast
    (if child.isLeaf then sibling.children else sibling.children.dropLast)
  let nk ← trySet node.keys (idx - 1) sibK
  let nv ← trySet node.values (idx - 1) sibV
  let node' := node.withFields nk nv node.children
  pure ((node'.setChild idx child').setChild (idx - 1) sibling')

/-- `BTree.borrowFromRight`: moves the separator key of `node` at `idx`
down into child `idx` and the first key of the right sibling up. -/
def borrowFromRight (node : BNode) (idx : Nat) : Option BNode := do
  let child ← node.children.get? idx
  let sibling ← node.children.get? (idx + 1)
  let sepK ← node.keys.get? idx
  let sepV ← node.values.get? idx
  let child' ←
    if child.isLeaf then
      pure (child.withFields (child.keys ++ [sepK]) (child.values ++ [sepV]) child.children)
    else do
      let firstC ← sibling.children.get? 0
      pure (child.withFields (child.keys ++ [sepK]) (child.values ++ [sepV])
        (child.children ++ [firstC]))
  let sibK ← sibling.keys.get? 0
  let sibV ← sibling.values.get? 0
  let sibling' := sibling.withFields (sibling.keys.drop 1) (sibling.values.drop 1)
    (if child.isLeaf then sibling.children else sibling.children.drop 1)
  let nk ← trySet node.keys idx sibK
  let nv ← trySet node.values idx sibV
  let node' := node.withFields nk nv node.children
  pure ((node'.setChild idx child').setChild (idx + 1) sibling')

/-- Outcome of the Go `merge(parent, idx)` function. -/
inductive MergeOut where
  | rootPromote (child : BNode)
  /-- `merged node' reassigned`: the merge happened, producing `node'`;
  `reassigned` records whether the trailing `t.root = left` special case
  fired (possible only when `parent` is the current root). -/
  | merged (node' : BNode) (reassigned : Bool)

/-- `BTree.merge` with the two root special cases made explicit.
`isRoot` says whether `parent` is the current tree root.  `none` is the
explicit `panic` on an invalid index. -/
def mergeGo (isRoot : Bool) (parent : BNode) (idx : Nat) : Option MergeOut :=
  if isRoot ∧ parent.children.length = 1 then
    (parent.children.get? 0).map .rootPromote
  else if idx + 1 ≥ parent.children.length then none
  else do
    let left ← parent.children.get? idx
    let right ← parent.children.get? (idx + 1)
    let sepK ← parent.keys.get? idx
    let sepV ← parent.values.get? idx
    let left' := left.withFields (left.keys ++ [sepK] ++ right.keys)
      (left.values ++ [sepV] ++ right.values)
      (if left.isLeaf then left.children else left.children ++ right.children)
    let pk := parent.keys.eraseIdx idx
    let pv := parent.values.eraseIdx idx
    let pc := (parent.children.set idx left').eraseIdx (idx + 1)
    let parent' := parent.withFields pk pv pc
    pure (.merged parent' (isRoot ∧ parent'.keys.isEmpty))

/-- `BTree.ensureChildHasEnoughKeys` outcome: the (possibly) mutated node
together with `some m` when `t.root` was reassigned to its child `m`. -/
def ensureChild (t : Nat) (isRoot : Bool) (node : BNode) (idx : Nat) :
    Option (BNode × Option Nat) := do
  let _child ← node.children.get? idx
  if isRoot ∧ node.children.length = 1 then
    -- the root is merged with (replaced by) its only child
    pure (node, some idx)
  else if idx > 0 ∧
      ((node.children.get? (idx - 1)).map (fun s => s.keys.length) |>.getD 0) ≥ t then do
    let node' ← borrowFromLeft node idx
    pure (node', none)
  else if idx < node.children.length - 1 ∧
      ((node.children.get? (idx + 1)).map (fun s => s.keys.length) |>.getD 0) ≥ t then do
    let node' ← borrowFromRight node idx
    pure (node', none)
  else
    let midx := if idx = 0 then 0 else idx - 1
    match ← mergeGo isRoot node midx with
    | .rootPromote _ => pure (node, some 0)
    | .merged node' reassigned => pure (node', if reassigned then some midx else none)

/-- `BTree.deleteInternalNodeKey`: the key sits at position `idx` of the
internal node; replace it by its predecessor or successor when the
adjacent child has at least `t` keys, otherwise merge and recurse.  The
recursive `t.delete` call is the `rec` parameter (supplied by `delRec`). -/
def delInternal (rec : Bool → BNode → Int → Option BNode) (t : Nat) (fuel : Nat)
    (isRoot : Bool) (node : BNode) (key : Int) (idx : Nat) : Option BNode := do
  let cl ← node.children.get? idx
  if cl.keys.length ≥ t then do
    let (pk, pv) ← getPredecessor fuel cl
    let nk ← trySet node.keys idx pk
    let nv ← trySet node.values idx pv
    let node' := node.withFields nk nv node.children
    let child ← node'.children.get? idx
    let child' ← rec false child pk
    pure (node'.setChild idx child')
  else do
    let cr ← node.children.get? (idx + 1)
    if cr.keys.length ≥ t then do
      let (sk, sv) ← getSuccessor fuel cr
      let nk ← trySet node.keys idx sk
      let nv ← trySet node.values idx sv
      let node' := node.withFields nk nv node.children
      let child ← node'.children.get? (idx + 1)
      let child' ← rec false child sk
      pure (node'.setChild (idx + 1) child')
    else
      match ← mergeGo isRoot node idx with
      | .rootPromote _ =>
          -- `merge` returned after only reassigning the root (unreachable
          -- here: the guard above dereferenced children[idx+1])
          do
            let child ← node.children.get? idx
            let r ← rec (idx = 0) child key
            if idx = 0 then pure r else node.children.get? 0
      | .merged node' reassigned => do
          let child ← node'.children.get? idx
          let r ← rec reassigned child key
          if reassigned then pure r else pure (node'.setChild idx r)

/-- The descent branch of `BTree.delete` (key not in this node): bounds
checks, the pre-emptive `ensureChildHasEnoughKeys`, and the recursion into
`children[idx]` - which, after a merge inside `ensureChildHasEnoughKeys`
has shifted the children, may be the wrong subtree or out of range.  The
recursive `t.delete` call is the `rec` parameter (supplied by `delRec`). -/
def delDescend (rec : Bool → BNode → Int → Option BNode) (t : Nat)
    (isRoot : Bool) (node : BNode) (key : Int) (idx : Nat) : Option BNode := do
  if node.isLeaf then
    -- "key not found": error ignored by every caller, no mutation
    pure node
  else if idx ≥ node.children.length then
    -- "invalid child index": error ignored by every caller, no mutation
    pure node
  else do
    let c ← node.children.get? idx
    let (node1, rootAt) ←
      if c.keys.length < t then ensureChild t isRoot node idx
      else pure (node, (none : Option Nat))
    match node1.children.get? idx with
    | none => none  -- Go panics: index out of range after the merge
    | some child =>
      let childIsRoot := rootAt = some idx
      do
        let r ← rec childIsRoot child key
        if childIsRoot then pure r
        else
          let updated := node1.setChild idx r
          match rootAt with
          | none => pure updated
          | some m => updated.children.get? m

/-- `BTree.delete` (fuel-indexed).  `isRoot` tracks whether `node` is the
current `t.root` (the Go code compares pointers for this).  The returned
node is the one that ends up as the root of the processed subtree after
the in-place mutations and the `t.root` reassignments.  `none` models a
Go panic (or fuel exhaustion, excluded in every statement below).
Go `error` returns of `delete` are ignored by all its callers and simply
leave the subtree unchanged. -/
def delRec (t : Nat) : Nat → Bool → BNode → Int → Option BNode
  | 0, _, _, _ => none
  | fuel + 1, isRoot, node, key =>
    let idx := countLt node.keys key
    match node.keys.get? idx with
    | some kidx =>
      if kidx = key then
        if node.isLeaf then
          -- case 1: remove in place from the leaf
          pure (node.withFields (node.keys.eraseIdx idx) (node.values.eraseIdx idx)
            node.children)
        else
          delInternal (fun a b c => delRec t fuel a b c) t fuel isRoot node key idx
      else
        delDescend (fun a b c => delRec t fuel a b c) t isRoot node key idx
    | none =>
      delDescend (fun a b c => delRec t fuel a b c) t isRoot node key idx

/-- `BTree.Delete`: `t.delete(t.root, key)`; the tree's root afterwards is
whatever node the recursion left as the subtree root. -/
def btDelete (fuel : Nat) (tr : BTree) (key : Int) : Option BTree :=
  (delRec tr.degree fuel true tr.root key).map (fun r => { tr with root := r })

/-! ### Node serialization (`BTree.serializeNode` / `btree.Deserialize`)

`serializeNode` writes one node: header, keys, length-prefixed values and
the list of children *ids* (children contents are not written - nothing in
the code base ever writes a non-root node to disk).  All in-memory nodes
carry the Go zero value `id = 0`, so every child reference serializes as
page id 0.  The non-string-value error branch cannot fire in the model
because values are always byte strings. -/

/-- `BTree.serializeNode` (the tree's degree is written, not the node's). -/
def serializeNode (tdeg : Nat) (node : BNode) : GoStr :=
  le4 node.id ++ [if node.isLeaf then 1 else 0] ++ le4 (tdeg : Int)
    ++ le4 (node.keys.length : Int)
    ++ (node.keys.map le4).flatten
    ++ (node.values.map (fun v => le4 (v.length : Int) ++ v)).flatten
    ++ le4 (node.children.length : Int)
    ++ (node.children.map (fun c => le4 c.id)).flatten

/-- `BTree.Serialize`: serializes the root node. -/
def btSerialize (tr : BTree) : GoStr := serializeNode tr.degree tr.root

/-- The `numKeys` loop of `btree.Deserialize`: reads `n` `int32` keys. -/
def readKeys : Nat → GoStr → Option (List Int × GoStr)
  | 0, s => some ([], s)
  | n + 1, s => do
    let (k, s1) ← readI32 s
    let (ks, s2) ← readKeys n s1
    pure (k :: ks, s2)

/-- The values loop of `btree.Deserialize`: reads `n` length-prefixed
values, with the partial-read semantics of `bytes.Reader.Read`
(`goRead`).  A negative length makes `make([]byte, valLen)` panic. -/
def readVals : Nat → GoStr → Option (List GoStr × GoStr)
  | 0, s => some ([], s)
  | n + 1, s => do
    let (len, s1) ← readI32 s
    if len < 0 then none
    else do
      let (v, s2) ← goRead len.toNat s1
      let (vs, s3) ← readVals n s2
      pure (v :: vs, s3)

/-- The children loop of `btree.Deserialize`: reads `n` child ids, fetches
each child's page and deserializes it (through the `recParse` parameter,
supplied by `deserializeNode`), collecting the child roots. -/
def readKids (fetch : Int → Option GoStr) (recParse : GoStr → Option BTree) :
    Nat → GoStr → Option (List BNode × GoStr)
  | 0, s => some ([], s)
  | n + 1, s => do
    let (cid, s1) ← readI32 s
    let cdata ← fetch cid
    let ctree ← recParse cdata
    let (rest, s2) ← readKids fetch recParse n s1
    pure (ctree.root :: rest, s2)

/-- `btree.Deserialize` (fuel-indexed): parses one node and recursively
fetches and parses every referenced child through the injected
`fetch` function.  (The Go code would loop forever on cyclic page
references; fuel exhaustion is `none` and is excluded by the fuel chosen
in every statement below.) -/
def deserializeNode (fetch : Int → Option GoStr) : Nat → GoStr → Option BTree
  | 0, _ => none
  | fuel + 1, data => do
    let (id, s1) ← readI32 data
    let (leaf, s2) ← readBool s1
    let (deg, s3) ← readI32 s2
    let (numKeys, s4) ← readI32 s3
    if numKeys < 0 then none
    else do
      let (keys, s5) ← readKeys numKeys.toNat s4
      let (vals, s6) ← readVals numKeys.toNat s5
      let (numCh, s7) ← readI32 s6
      if numCh < 0 then none
      else do
        let (kids, _) ← readKids fetch (deserializeNode fetch fuel) numCh.toNat s7
        let tdeg : Nat := if deg < 2 then 2 else deg.toNat
        pure { root := .mk id keys vals kids leaf, degree := tdeg }

/-! ## Write-ahead log (`internal/storage/kvstore/log.go`)

`LogEntry` is serialized by `encoding/json` as a single line.  The model
renders the exact byte shape `json.Marshal` produces for these records -
`{"operation":...,"key":...,"value":...,"table":...}` with `value`
omitted when empty - including the string encoder's behaviour byte for
byte: HTML-escaping of `<`, `>`, `&`, the two-character and `\u00XX`
escapes for `"`, `\` and control bytes, raw emission of valid
multi-byte UTF-8 (with U+2028/U+2029 escaped), and the coercion of every
invalid UTF-8 byte to the six-character escape for U+FFFD.
`decodeEntry` accepts one record in the
canonical field order `json.Marshal` emits, with full string unquoting
(`json.Unmarshal`'s escape handling, surrogate pairs, and re-encoding of
invalid UTF-8 as U+FFFD), and fails on everything else, modelling
`json.Unmarshal`'s error on malformed lines. -/

/-- `kvstore.LogEntry`. -/
structure LogEntry where
  operation : GoStr
  key : Int
  value : GoStr
  table : GoStr
  deriving Repr, DecidableEq

/-- The bytes of the string `PUT`. -/
def opPUT : GoStr := [80, 85, 84]

/-- The bytes of the string `DELETE`. -/
def opDELETE : GoStr := [68, 69, 76, 69, 84, 69]

/-- Decimal digits of a natural number, most significant first
(structural recursion through a fuel bound that always suffices). -/
def natDecAux : Nat → Nat → GoStr
  | 0, _ => []
  | fuel + 1, n => if n < 10 then [48 + n] else natDecAux fuel (n / 10) ++ [48 + n % 10]

/-- Decimal digits of a natural number (most significant first). -/
def natDecDigits (n : Nat) : GoStr := natDecAux (n + 1) n

/-- Decimal rendering of an integer (with `-` sign), as `json.Marshal`
prints an `int`. -/
def intDec (x : Int) : GoStr :=
  if x < 0 then 45 :: natDecDigits (-x).toNat else natDecDigits x.toNat

/-- Lowercase hexadecimal digit, as `encoding/json`'s
`hex = "0123456789abcdef"` table. -/
def hexDigit (n : Nat) : Nat := if n < 10 then 48 + n else 87 + n

/-- The six bytes of a `\uXXXX` escape for a code point below `0x10000`
(leading zeros included), as the encoder writes for control bytes,
`<`, `>`, `&`, U+2028 and U+2029. -/
def u4Escape (n : Nat) : GoStr :=
  [92, 117, hexDigit (n / 4096 % 16), hexDigit (n / 256 % 16),
   hexDigit (n / 16 % 16), hexDigit (n % 16)]

/-- `utf8.DecodeRune` on a byte list: the decoded code point and the
number of bytes consumed, with `(0xFFFD, 1)` for every invalid encoding
(stray continuation or lead byte, overlong form, surrogate range,
beyond U+10FFFF, or truncated sequence), exactly Go's accept ranges. -/
def decodeRune : GoStr → Nat × Nat
  | [] => (65533, 0)
  | b0 :: rest =>
    if b0 < 128 then (b0, 1)
    else if 194 ≤ b0 ∧ b0 ≤ 223 then
      match rest with
      | b1 :: _ =>
        if 128 ≤ b1 ∧ b1 ≤ 191 then ((b0 - 192) * 64 + (b1 - 128), 2)
        else (65533, 1)
      | _ => (65533, 1)
    else if 224 ≤ b0 ∧ b0 ≤ 239 then
      match rest with
      | b1 :: b2 :: _ =>
        if ((if b0 = 224 then 160 else 128) ≤ b1 ∧
            b1 ≤ (if b0 = 237 then 159 else 191)) ∧ (128 ≤ b2 ∧ b2 ≤ 191) then
          ((b0 - 224) * 4096 + (b1 - 128) * 64 + (b2 - 128), 3)
        else (65533, 1)
      | _ => (65533, 1)
    else if 240 ≤ b0 ∧ b0 ≤ 244 then
      match rest with
      | b1 :: b2 :: b3 :: _ =>
        if ((if b0 = 240 then 144 else 128) ≤ b1 ∧
            b1 ≤ (if b0 = 244 then 143 else 191)) ∧
            (128 ≤ b2 ∧ b2 ≤ 191) ∧ (128 ≤ b3 ∧ b3 ≤ 191) then
          ((b0 - 240) * 262144 + (b1 - 128) * 4096 + (b2 - 128) * 64 + (b3 - 128), 4)
        else (65533, 1)
      | _ => (65533, 1)
    else (65533, 1)

/-- The string encoder of `json.Marshal` (`appendString` with the default
HTML escaping), bytewise: ASCII outside `"`,`\`,`<`,`>`,`&` and the
controls is emitted raw (including DEL), `"` and `\` get two-character
escapes, newline, carriage return and tab get theirs, the remaining
controls and `<`, `>`, `&` get `\u00XX`, valid multi-byte UTF-8 is
emitted raw except U+2028/U+2029, and an invalid UTF-8 byte becomes the
literal six characters of the U+FFFD escape.  The fuel is the input
length; every step consumes at least one byte. -/
def jsonEscapeAux : Nat → GoStr → GoStr
  | 0, _ => []
  | _, [] => []
  | fuel + 1, b :: bs =>
    if b < 128 then
      (if b < 32 then
        if b = 10 then [92, 110]
        else if b = 13 then [92, 114]
        else if b = 9 then [92, 116]
        else u4Escape b
      else if b = 34 then [92, 34]
      else if b = 92 then [92, 92]
      else if b = 60 ∨ b = 62 ∨ b = 38 then u4Escape b
      else [b]) ++ jsonEscapeAux fuel bs
    else
      match decodeRune (b :: bs) with
      | (r, size) =>
        if size = 1 then [92, 117, 102, 102, 102, 100] ++ jsonEscapeAux fuel bs
        else if r = 8232 ∨ r = 8233 then
          u4Escape r ++ jsonEscapeAux fuel (bs.drop (size - 1))
        else (b :: bs.take (size - 1)) ++ jsonEscapeAux fuel (bs.drop (size - 1))

/-- The escaped content of a string, as `json.Marshal` writes it. -/
def jsonEscape (s : GoStr) : GoStr := jsonEscapeAux s.length s

/-- A JSON string literal as `json.Marshal` emits it: quote, escaped
content, quote. -/
def jsonStr (s : GoStr) : GoStr := 34 :: jsonEscape s ++ [34]

/-- The bytes of `operation`. -/
def fieldOperation : GoStr := [111, 112, 101, 114, 97, 116, 105, 111, 110]

/-- The bytes of `key`. -/
def fieldKey : GoStr := [107, 101, 121]

/-- The bytes of `value`. -/
def fieldValue : GoStr := [118, 97, 108, 117, 101]

/-- The bytes of `table`. -/
def fieldTable : GoStr := [116, 97, 98, 108, 101]

/-- `LogEntry.Serialize` = `json.Marshal`: the canonical one-line JSON
record (the struct tag on `Value` is `value,omitempty`). -/
def encodeEntry (e : LogEntry) : GoStr :=
  [123] ++ jsonStr fieldOperation ++ [58] ++ jsonStr e.operation ++ [44]
    ++ jsonStr fieldKey ++ [58] ++ intDec e.key
    ++ (if e.value.isEmpty then [] else [44] ++ jsonStr fieldValue ++ [58] ++ jsonStr e.value)
    ++ [44] ++ jsonStr fieldTable ++ [58] ++ jsonStr e.table ++ [125]

/-- Strips an expected literal byte sequence, failing on mismatch. -/
def stripLit : GoStr → GoStr → Option GoStr
  | [], s => some s
  | _ :: _, [] => none
  | p :: ps, b :: bs => if p = b then stripLit ps bs else none

/-- `utf8.EncodeRune`: the UTF-8 bytes of a code point (callers below
pass only code points a successful decode can produce). -/
def encodeRune (r : Nat) : GoStr :=
  if r < 128 then [r]
  else if r < 2048 then [192 + r / 64, 128 + r % 64]
  else if r < 65536 then [224 + r / 4096, 128 + r / 64 % 64, 128 + r % 64]
  else [240 + r / 262144, 128 + r / 4096 % 64, 128 + r / 64 % 64, 128 + r % 64]

/-- The value of one hexadecimal digit byte (either case), or `none`. -/
def hexVal (b : Nat) : Option Nat :=
  if 48 ≤ b ∧ b ≤ 57 then some (b - 48)
  else if 97 ≤ b ∧ b ≤ 102 then some (b - 87)
  else if 65 ≤ b ∧ b ≤ 70 then some (b - 55)
  else none

/-- `getu4` of `json/decode.go`: exactly four hex digits. -/
def getu4 : GoStr → Option (Nat × GoStr)
  | a :: b :: c :: d :: rest => do
    let x ← hexVal a
    let y ← hexVal b
    let z ← hexVal c
    let w ← hexVal d
    pure (x * 4096 + y * 256 + z * 16 + w, rest)
  | _ => none

/-- Reads string-literal content up to the closing quote, with
`json.Unmarshal`'s semantics (the scanner composed with `unquoteBytes`):
the escapes `\"` `\\` `\/` `\b` `\f` `\n` `\r` `\t` `\uXXXX` (surrogate
pairs combined, lone surrogates becoming U+FFFD), any other escape or a
raw control byte failing the parse, raw bytes below 128 kept, and bytes
at 128 and above re-encoded through `utf8.DecodeRune`/`EncodeRune`
(coercing invalid UTF-8 to U+FFFD).  The fuel is the input length plus
one; every step consumes at least one byte. -/
def unquoteAux : Nat → GoStr → Option (GoStr × GoStr)
  | 0, _ => none
  | _, [] => none
  | fuel + 1, b :: bs =>
    if b = 34 then some ([], bs)
    else if b = 92 then
      match bs with
      | [] => none
      | e :: cs =>
        if e = 34 ∨ e = 92 ∨ e = 47 then
          (unquoteAux fuel cs).map (fun p => (e :: p.1, p.2))
        else if e = 98 then (unquoteAux fuel cs).map (fun p => (8 :: p.1, p.2))
        else if e = 102 then (unquoteAux fuel cs).map (fun p => (12 :: p.1, p.2))
        else if e = 110 then (unquoteAux fuel cs).map (fun p => (10 :: p.1, p.2))
        else if e = 114 then (unquoteAux fuel cs).map (fun p => (13 :: p.1, p.2))
        else if e = 116 then (unquoteAux fuel cs).map (fun p => (9 :: p.1, p.2))
        else if e = 117 then
          match getu4 cs with
          | none => none
          | some (rr, rest1) =>
            if 55296 ≤ rr ∧ rr < 57344 then
              match rest1 with
              | 92 :: 117 :: rest2 =>
                (match getu4 rest2 with
                | some (rr2, rest3) =>
                  if (55296 ≤ rr ∧ rr < 56320) ∧ (56320 ≤ rr2 ∧ rr2 < 57344) then
                    (unquoteAux fuel rest3).map
                      (fun p => (encodeRune (65536 + (rr - 55296) * 1024 + (rr2 - 56320)) ++ p.1, p.2))
                  else (unquoteAux fuel rest1).map (fun p => (encodeRune 65533 ++ p.1, p.2))
                | none => (unquoteAux fuel rest1).map (fun p => (encodeRune 65533 ++ p.1, p.2)))
              | _ => (unquoteAux fuel rest1).map (fun p => (encodeRune 65533 ++ p.1, p.2))
            else (unquoteAux fuel rest1).map (fun p => (encodeRune rr ++ p.1, p.2))
        else none
    else if b < 32 then none
    else if b < 128 then (unquoteAux fuel bs).map (fun p => (b :: p.1, p.2))
    else
      match decodeRune (b :: bs) with
      | (r, size) =>
        (unquoteAux fuel (bs.drop (size - 1))).map (fun p => (encodeRune r ++ p.1, p.2))

/-- String-literal content up to the closing quote, unquoted. -/
def unquote (s : GoStr) : Option (GoStr × GoStr) := unquoteAux (s.length + 1) s

/-- Is the byte an ASCII digit? -/
def isDigit (b : Nat) : Bool := 48 ≤ b ∧ b ≤ 57

/-- Consumes a maximal run of digits, accumulating their value. -/
def digitsVal : GoStr → Nat → Nat × GoStr
  | [], acc => (acc, [])
  | b :: bs, acc =>
    if isDigit b then digitsVal bs (acc * 10 + (b - 48)) else (acc, b :: bs)

/-- Parses a (signed) decimal integer; requires at least one digit. -/
def parseIntDec : GoStr → Option (Int × GoStr)
  | [] => none
  | b :: bs =>
    if b = 45 then
      match bs with
      | [] => none
      | c :: cs =>
        if isDigit c then
          let p := digitsVal cs (c - 48)
          some (-(p.1 : Int), p.2)
        else none
    else if isDigit b then
      let p := digitsVal bs (b - 48)
      some ((p.1 : Int), p.2)
    else none

/-- `DeserializeLogEntry` = `json.Unmarshal` on one log line: accepts the
canonical record shape produced by `encodeEntry` (with or without the
optional `value` field) and fails on anything else. -/
def decodeEntry (line : GoStr) : Option LogEntry := do
  let s ← stripLit ([123, 34] ++ fieldOperation ++ [34, 58, 34]) line
  let (op, s1) ← unquote s
  let s2 ← stripLit ([44, 34] ++ fieldKey ++ [34, 58]) s1
  let (k, s3) ← parseIntDec s2
  match stripLit ([44, 34] ++ fieldValue ++ [34, 58, 34]) s3 with
  | some s4 => do
    let (v, s5) ← unquote s4
    let s6 ← stripLit ([44, 34] ++ fieldTable ++ [34, 58, 34]) s5
    let (tb, s7) ← unquote s6
    let s8 ← stripLit [125] s7
    if s8.isEmpty then some ⟨op, k, v, tb⟩ else none
  | none => do
    let s4 ← stripLit ([44, 34] ++ fieldTable ++ [34, 58, 34]) s3
    let (tb, s5) ← unquote s4
    let s6 ← stripLit [125] s5
    if s6.isEmpty then some ⟨op, k, [], tb⟩ else none

/-- `kvstore.AppendOnlyLog`: the log file, as the list of its
newline-terminated lines (plus possibly a torn unterminated tail, which is
just a line that fails to parse). -/
structure AppendOnlyLog where
  lines : List GoStr
  deriving Repr, DecidableEq

/-- `AppendOnlyLog.Append`: serializes the entry, appends it followed by a
newline. -/
def walAppend (log : AppendOnlyLog) (e : LogEntry) : AppendOnlyLog :=
  ⟨log.lines ++ [encodeEntry e]⟩

/-- `AppendOnlyLog.Replay`: scans the file line by line from the start,
parsing each line and skipping (with a warning) every line that fails to
parse, in order. -/
def walReplay (log : AppendOnlyLog) : List LogEntry :=
  log.lines.filterMap decodeEntry

/-- Content `json.Marshal`'s string encoder emits verbatim: printable
ASCII (0x20-0x7E) other than the quote, the backslash and the
HTML-escaped `<`, `>`, `&`.  On such content `jsonEscape` is the
identity and `unquote` reads the bytes straight back, so the round-trip
below covers exactly the regime it claims.  (Control bytes, `<`, `>`,
`&`, quotes and backslashes would be escaped - those still round-trip in
Go - while invalid UTF-8 is coerced to U+FFFD and does NOT round-trip;
see the C4 counterexample.) -/
def PlainJSON (s : GoStr) : Prop :=
  ∀ b ∈ s, 32 ≤ b ∧ b ≤ 126 ∧ b ≠ 34 ∧ b ≠ 92 ∧ b ≠ 60 ∧ b ≠ 62 ∧ b ≠ 38

instance : DecidablePred PlainJSON := fun s => by
  unfold PlainJSON; infer_instance

/-- A log entry whose string fields the JSON string encoder emits
verbatim (see `PlainJSON`). -/
def EntryOk (e : LogEntry) : Prop :=
  PlainJSON e.operation ∧ PlainJSON e.value ∧ PlainJSON e.table

instance : DecidablePred EntryOk := fun e => by
  unfold EntryOk; infer_instance

/-- An interaction with the log file: a successful `Append(e)`, or an
arbitrary corrupted line ending up in the file (a torn tail, bit rot, or
a stray write such as `log_test.go`'s `WriteString("corrupted data\n")`). -/
inductive WalAct where
  | app (e : LogEntry)
  | corrupt (line : GoStr)

/-- Runs a sequence of log-file interactions. -/
def runWalActs : AppendOnlyLog → List WalAct → AppendOnlyLog
  | log, [] => log
  | log, .app e :: rest => runWalActs (walAppend log e) rest
  | log, .corrupt s :: rest => runWalActs ⟨log.lines ++ [s]⟩ rest

/-- The records successfully appended by a sequence of interactions, in
order. -/
def appendedEntries (acts : List WalAct) : List LogEntry :=
  acts.filterMap (fun a => match a with | .app e => some e | .corrupt _ => none)

/-- Well-formedness of one interaction: appended entries are escape-free
(see `EntryOk`), and corrupted lines are lines that fail to parse. -/
def actOk : WalAct → Prop
  | .app e => EntryOk e
  | .corrupt s => decodeEntry s = none

instance : DecidablePred actOk := fun a =>
  match a with
  | .app e => inferInstanceAs (Decidable (EntryOk e))
  | .corrupt s => inferInstanceAs (Decidable (decodeEntry s = none))

/-- Value of a digit string under the accumulator fold of `digitsVal`. -/
def valOfDigits (s : GoStr) (acc : Nat) : Nat :=
  s.foldl (fun a b => a * 10 + (b - 48)) acc

/-- Heads of byte strings that cannot begin a digit run. -/
def NonDigitHead (s : GoStr) : Prop :=
  s = [] ∨ ∃ b bs, s = b :: bs ∧ isDigit b = false

/-! ## Catalog (`internal/storage/catalog/catalog.go`, `entry.go`,
`persist.go`)

`TableMetadata` declares `CreatedAt` and `RowCount` fields, but no code
path ever assigns either (`CreateTable` sets only `Name`, `Degree` and
`RootID`, and `Save`/`Load` do not serialize them), so they always hold
the Go zero values, modelled as `0`. -/

/-- `catalog.TableMetadata`. -/
structure TableMetadata where
  name : GoStr
  rootID : Int
  degree : Int
  createdAt : Int
  rowCount : Int
  deriving Repr, DecidableEq

/-- Association-list lookup (Go map read). -/
def alistLookup {α : Type} (l : List (GoStr × α)) (k : GoStr) : Option α :=
  (l.find? (fun p => p.1 = k)).map Prod.snd

/-- Association-list insert-or-replace (Go map write). -/
def alistInsert {α : Type} (l : List (GoStr × α)) (k : GoStr) (v : α) :
    List (GoStr × α) :=
  if (l.find? (fun p => p.1 = k)).isSome then
    l.map (fun p => if p.1 = k then (k, v) else p)
  else l ++ [(k, v)]

/-- Association-list removal (Go `delete`). -/
def alistRemove {α : Type} (l : List (GoStr × α)) (k : GoStr) : List (GoStr × α) :=
  l.filter (fun p => ¬ p.1 = k)

/-- `catalog.Catalog`: the in-memory name-to-metadata map. -/
structure Catalog where
  tables : List (GoStr × TableMetadata)
  deriving Repr, DecidableEq

/-- `catalog.NewCatalog`. -/
def newCatalog : Catalog := ⟨[]⟩

/-- `Catalog.CreateTable(name, degree, rootID)`: fails (`none`) when the
name is registered; otherwise records `{Name, Degree, RootID}` (leaving
`CreatedAt` and `RowCount` at their zero values). -/
def catalogCreateTable (c : Catalog) (name : GoStr) (degree rootID : Int) :
    Option Catalog :=
  if (alistLookup c.tables name).isSome then none
  else some ⟨c.tables ++ [(name,
    { name := name, rootID := rootID, degree := degree, createdAt := 0, rowCount := 0 })]⟩

/-- `Catalog.Get`. -/
def catalogGet (c : Catalog) (name : GoStr) : Option TableMetadata :=
  alistLookup c.tables name

/-- `Catalog.DropTable`: fails (`none`) when the name is unknown. -/
def catalogDropTable (c : Catalog) (name : GoStr) : Option Catalog :=
  if (alistLookup c.tables name).isSome then some ⟨alistRemove c.tables name⟩
  else none

/-- One table's record in the `Catalog.Save` byte buffer: `int32
name_len`, the name bytes, `int32 root_id`, `int32 degree`.
(`created_at` and `row_count` are NOT written.) -/
def serializeCatEntry (m : TableMetadata) : GoStr :=
  le4 (m.name.length : Int) ++ m.name ++ le4 m.rootID ++ le4 m.degree

/-- The byte buffer `Catalog.Save` builds: `int32 table_count` followed by
each table's record. -/
def catalogSaveBytes (c : Catalog) : GoStr :=
  le4 (c.tables.length : Int) ++ (c.tables.map (fun p => serializeCatEntry p.2)).flatten

/-- `Catalog.Save`: writes the serialized catalog to page 0 through the
disk manager (one page write; `fitPage` pads or truncates). -/
def catalogSave (c : Catalog) (dm : FileDiskManager) : Option FileDiskManager :=
  dm.writePage 0 (catalogSaveBytes c)

/-- One iteration of the entry loop of `Catalog.Load`: `int32 name_len`,
the name bytes (`goRead` semantics), `int32 root_id`, `int32 degree`;
`none` on any `binary.Read` error (a negative `name_len` would make
`make([]byte, nameLen)` panic, folded into the failed load here). -/
def readCatEntry (s : GoStr) : Option ((GoStr × TableMetadata) × GoStr) := do
  let (nameLen, s1) ← readI32 s
  if nameLen < 0 then none
  else do
    let (nameBytes, s2) ← goRead nameLen.toNat s1
    let (rootID, s3) ← readI32 s2
    let (degree, s4) ← readI32 s3
    pure ((nameBytes,
      { name := nameBytes, rootID := rootID, degree := degree,
        createdAt := 0, rowCount := 0 }), s4)

/-- The entry loop of `Catalog.Load`: reads up to `n` entries, returning
the entries read so far and whether a read error aborted the loop (in Go
the error is returned while the partially filled map stays in place). -/
def readCatEntries : Nat → GoStr → List (GoStr × TableMetadata) →
    List (GoStr × TableMetadata) × Bool
  | 0, _, acc => (acc, false)
  | i + 1, s, acc =>
    match readCatEntry s with
    | none => (acc, true)
    | some ((nameBytes, meta), s4) =>
      readCatEntries i s4 (alistInsert acc nameBytes meta)

/-- `Catalog.Load`: reads page 0 and rebuilds the in-memory map.  When the
page read fails the map is left untouched; otherwise the map is reset and
then filled entry by entry, KEEPING whatever was parsed before a mid-way
read error.  The boolean is the Go error. -/
def catalogLoad (c : Catalog) (dm : FileDiskManager) : Catalog × Bool :=
  match dm.readPage 0 with
  | none => (c, true)
  | some data =>
    match readI32 data with
    | none => (⟨[]⟩, true)
    | some (count, s) =>
      if count < 0 then (⟨[]⟩, false)
      else
        let (ents, err) := readCatEntries count.toNat s []
        (⟨ents⟩, err)

/-! ## Key-value store orchestrator (`internal/storage/kvstore/kvstore.go`)

Operations return the mutated store together with a `GoResult` (mirroring
the Go convention of returning mutations plus an `error`); the whole
result is wrapped in `Option`, with `none` for a Go panic.  `fuel` bounds
the tree-recursion depth as above. -/

/-- Success-or-error of a Go call (the error payloads of this code base
are never inspected, only compared with `nil`). -/
inductive GoResult (α : Type) where
  | ok (a : α)
  | err
  deriving Repr, DecidableEq

/-- `kvstore.BTreeKVStore`. -/
structure BTreeKVStore where
  tables : List (GoStr × BTree)
  diskManager : FileDiskManager
  log : AppendOnlyLog
  catalog : Catalog

/-- `kvstore.NewBTreeKVStore`: opens the log, creates a catalog and loads
it, IGNORING the load error.  (The `degree` parameter of the Go function
is not used for anything.) -/
def newBTreeKVStore (dm : FileDiskManager) (log : AppendOnlyLog) : BTreeKVStore :=
  let (cat, _) := catalogLoad newCatalog dm
  ⟨[], dm, log, cat⟩

/-- `BTreeKVStore.GetPageDataByID`: the page-fetch function injected into
`btree.Deserialize`. -/
def kvFetch (dm : FileDiskManager) : Int → Option GoStr :=
  fun pid => dm.readPage pid

/-- The materialize-on-miss step shared by `Put`, `Get`, `Delete` and
`Load`: reads the table's root page (id from the catalog) and
deserializes the tree, caching it in the in-memory table map. -/
def kvMaterialize (fuel : Nat) (kv : BTreeKVStore) (table : GoStr) :
    GoResult BTree × BTreeKVStore :=
  match alistLookup kv.tables table with
  | some bt => (.ok bt, kv)
  | none =>
    match catalogGet kv.catalog table with
    | none => (.err, kv)
    | some meta =>
      match kv.diskManager.readPage meta.rootID with
      | none => (.err, kv)
      | some data =>
        match deserializeNode (kvFetch kv.diskManager) fuel data with
        | none => (.err, kv)
        | some bt => (.ok bt, { kv with tables := alistInsert kv.tables table bt })

/-- `BTreeKVStore.CreateTableName`: reject registered names; create the
in-memory tree; allocate a root page; register in the catalog - NOTE the
call site passes `(name, rootID, int32(degree))` into
`Catalog.CreateTable(name string, degree int32, rootID int32)` - and
persist the catalog. -/
def kvCreateTableName (kv : BTreeKVStore) (name : GoStr) (degree : Nat) :
    GoResult Unit × BTreeKVStore :=
  if (catalogGet kv.catalog name).isSome then (.err, kv)
  else
    let bt := newBTree degree
    let kv1 := { kv with tables := alistInsert kv.tables name bt }
    let (rootID, dm1) := kv1.diskManager.allocatePage
    let kv2 := { kv1 with diskManager := dm1 }
    match catalogCreateTable kv2.catalog name rootID (degree : Int) with
    | none => (.err, kv2)
    | some cat1 =>
      let kv3 := { kv2 with catalog := cat1 }
      match catalogSave kv3.catalog kv3.diskManager with
      | none => (.err, kv3)
      | some dm2 => (.ok (), { kv3 with diskManager := dm2 })

/-- `BTreeKVStore.Flush`: serializes the table's tree, writes it to the
table's root page (per the catalog), then persists the catalog. -/
def kvFlush (kv : BTreeKVStore) (table : GoStr) : GoResult Unit × BTreeKVStore :=
  match alistLookup kv.tables table with
  | none => (.err, kv)
  | some bt =>
    match catalogGet kv.catalog table with
    | none => (.err, kv)
    | some meta =>
      let data := btSerialize bt
      match kv.diskManager.writePage meta.rootID data with
      | none => (.err, kv)
      | some dm1 =>
        match catalogSave kv.catalog dm1 with
        | none => (.err, { kv with diskManager := dm1 })
        | some dm2 => (.ok (), { kv with diskManager := dm2 })

/-- `BTreeKVStore.Put`: materialize the tree if absent, append a PUT
record to the WAL, insert into the in-memory tree, flush. -/
def kvPut (fuel : Nat) (kv : BTreeKVStore) (table : GoStr) (key : Int)
    (value : GoStr) : Option (GoResult Unit × BTreeKVStore) :=
  match kvMaterialize fuel kv table with
  | (.err, kv1) => some (.err, kv1)
  | (.ok bt, kv1) =>
    let kv2 := { kv1 with log := walAppend kv1.log ⟨opPUT, key, value, table⟩ }
    match btInsert fuel bt key value with
    | none => none
    | some bt' =>
      let kv3 := { kv2 with tables := alistInsert kv2.tables table bt' }
      some (kvFlush kv3 table)

/-- `BTreeKVStore.Get`: materialize the tree if absent, search it;
returns `(value, true)` or `("", false)`. -/
def kvGet (fuel : Nat) (kv : BTreeKVStore) (table : GoStr) (key : Int) :
    Option (GoResult (GoStr × Bool) × BTreeKVStore) :=
  match kvMaterialize fuel kv table with
  | (.err, kv1) => some (.err, kv1)
  | (.ok bt, kv1) =>
    match btSearch fuel bt key with
    | none => none
    | some none => some (.ok ([], false), kv1)
    | some (some v) => some (.ok (v, true), kv1)

/-- `BTreeKVStore.Delete`: materialize the tree if absent, append a
DELETE record to the WAL, delete from the in-memory tree (whose internal
errors are ignored but whose panics crash), flush. -/
def kvDelete (fuel : Nat) (kv : BTreeKVStore) (table : GoStr) (key : Int) :
    Option (GoResult Unit × BTreeKVStore) :=
  match kvMaterialize fuel kv table with
  | (.err, kv1) => some (.err, kv1)
  | (.ok bt, kv1) =>
    let kv2 := { kv1 with log := walAppend kv1.log ⟨opDELETE, key, [], table⟩ }
    match btDelete fuel bt key with
    | none => none
    | some bt' =>
      let kv3 := { kv2 with tables := alistInsert kv2.tables table bt' }
      some (kvFlush kv3 table)

/-- The per-table materialization loop of `BTreeKVStore.Load`. -/
def kvLoadTables (fuel : Nat) : List (GoStr × TableMetadata) → BTreeKVStore →
    GoResult Unit × BTreeKVStore
  | [], kv => (.ok (), kv)
  | (name, meta) :: rest, kv =>
    match kv.diskManager.readPage meta.rootID with
    | none => (.err, kv)
    | some data =>
      match deserializeNode (kvFetch kv.diskManager) fuel data with
      | none => (.err, kv)
      | some bt =>
        kvLoadTables fuel rest { kv with tables := alistInsert kv.tables name bt }

/-- The WAL-replay loop of `BTreeKVStore.Load`: applies each replayed
record to the matching in-memory tree (materializing it on a miss and
skipping records whose table is unknown to the catalog). -/
def kvReplayEntries (fuel : Nat) : List LogEntry → BTreeKVStore →
    Option (GoResult Unit × BTreeKVStore)
  | [], kv => some (.ok (), kv)
  | e :: rest, kv =>
    match alistLookup kv.tables e.table, catalogGet kv.catalog e.table with
    | none, none => kvReplayEntries fuel rest kv  -- unknown table: `continue`
    | none, some meta =>
      -- materialize (read errors abort Load with an error)
      (match kv.diskManager.readPage meta.rootID with
      | none => some (.err, kv)
      | some data =>
        match deserializeNode (kvFetch kv.diskManager) fuel data with
        | none => some (.err, kv)
        | some bt =>
          let kv1 := { kv with tables := alistInsert kv.tables e.table bt }
          match (if e.operation = opPUT then (btInsert fuel bt e.key e.value).map some
                 else if e.operation = opDELETE then (btDelete fuel bt e.key).map some
                 else some none) with
          | none => none
          | some none => kvReplayEntries fuel rest kv1
          | some (some bt') =>
            kvReplayEntries fuel rest
              { kv1 with tables := alistInsert kv1.tables e.table bt' })
    | some bt, _ =>
      match (if e.operation = opPUT then (btInsert fuel bt e.key e.value).map some
             else if e.operation = opDELETE then (btDelete fuel bt e.key).map some
             else some none) with
      | none => none
      | some none => kvReplayEntries fuel rest kv
      | some (some bt') =>
        kvReplayEntries fuel rest { kv with tables := alistInsert kv.tables e.table bt' }

/-- `BTreeKVStore.Load`: reload the catalog, materialize every table's
tree from its root page, then replay the WAL into the in-memory trees. -/
def kvLoad (fuel : Nat) (kv : BTreeKVStore) : Option (GoResult Unit × BTreeKVStore) :=
  let (cat1, errCat) := catalogLoad kv.catalog kv.diskManager
  let kv1 := { kv with catalog := cat1 }
  if errCat then some (.err, kv1)
  else
    match kvLoadTables fuel kv1.catalog.tables kv1 with
    | (.err, kv2) => some (.err, kv2)
    | (.ok _, kv2) =>
      kvReplayEntries fuel (walReplay kv2.log) kv2

/-- `BTreeKVStore.DropTable`: requires the table in the in-memory map,
drops it from the in-memory catalog, then from the in-memory map.  No
page write, no page free. -/
def kvDropTable (kv : BTreeKVStore) (name : GoStr) : GoResult Unit × BTreeKVStore :=
  match alistLookup kv.tables name with
  | none => (.err, kv)
  | some _ =>
    match catalogDropTable kv.catalog name with
    | none => (.err, kv)
    | some cat1 =>
      (.ok (), { kv with catalog := cat1, tables := alistRemove kv.tables name })

/-- `BTreeKVStore.IsTableExists`. -/
def kvIsTableExists (kv : BTreeKVStore) (name : GoStr) : Bool :=
  (catalogGet kv.catalog name).isSome

/-! ## Transaction coordinator (`internal/storage/kvstore/transaction.go`) -/

/-- `kvstore.operationBackup`. -/
structure OperationBackup where
  table : GoStr
  key : Int
  oldValue : GoStr
  existed : Bool
  deriving Repr, DecidableEq

/-- `kvstore.Transaction` (the `kv` pointer is passed explicitly). -/
structure GoTransaction where
  operations : List LogEntry
  rollbackLog : List OperationBackup

/-- `BTreeKVStore.BeginTransaction`. -/
def beginTransaction : GoTransaction := ⟨[], []⟩

/-- `Transaction.PutBatch`. -/
def txPutBatch (tx : GoTransaction) (table : GoStr) (key : Int) (value : GoStr) :
    GoTransaction :=
  { tx with operations := tx.operations ++ [⟨opPUT, key, value, table⟩] }

/-- `Transaction.DeleteBatch`. -/
def txDeleteBatch (tx : GoTransaction) (table : GoStr) (key : Int) : GoTransaction :=
  { tx with operations := tx.operations ++ [⟨opDELETE, key, [], table⟩] }

/-- `Transaction.rollback`: walks the rollback journal in REVERSE order,
restoring the old value where the key existed and deleting it where it
did not; errors of the restoring `Put`/`Delete` calls are discarded (but
their panics still crash).  The argument is the journal already
reversed. -/
def txRollbackAux (fuel : Nat) : List OperationBackup → BTreeKVStore →
    Option BTreeKVStore
  | [], kv => some kv
  | b :: rest, kv => do
    let r ← (if b.existed then kvPut fuel kv b.table b.key b.oldValue
             else kvDelete fuel kv b.table b.key)
    txRollbackAux fuel rest r.2

/-- `Transaction.Commit` main loop: for each queued op, snapshot the
current `(value, existed)` (ignoring the read's error, as the Go code
does), apply the op, and on failure roll back everything applied so far
in reverse order and report `CommitFailed`. -/
def txCommitAux (fuel : Nat) : List LogEntry → List OperationBackup →
    BTreeKVStore → Option (GoResult Unit × BTreeKVStore)
  | [], _, kv => some (.ok (), kv)
  | op :: rest, rlog, kv => do
    let got ← kvGet fuel kv op.table op.key
    let (val, found) := match got.1 with
      | .ok vf => vf
      | .err => ([], false)
    let kv1 := got.2
    let rlog1 := rlog ++ [⟨op.table, op.key, val, found⟩]
    let applied ←
      if op.operation = opPUT then kvPut fuel kv1 op.table op.key op.value
      else if op.operation = opDELETE then kvDelete fuel kv1 op.table op.key
      else some (.err, kv1)
    match applied.1 with
    | .ok _ => txCommitAux fuel rest rlog1 applied.2
    | .err => do
      let kv2 ← txRollbackAux fuel rlog1.reverse applied.2
      pure (.err, kv2)

/-- `Transaction.Commit`. -/
def txCommit (fuel : Nat) (tx : GoTransaction) (kv : BTreeKVStore) :
    Option (GoResult Unit × BTreeKVStore) :=
  txCommitAux fuel tx.operations tx.rollbackLog kv

/-! ## Structural invariants of the B-Tree (spec §3, claims about §8)

Decidable checkers for the three invariants named by the specification:
strictly ascending keys within every node, the `t-1 .. 2t-1` key-count
bounds on every non-root node, and equal depth of all leaves. -/

/-- Strictly ascending integer list. -/
def keysStrictAsc : List Int → Bool
  | [] => true
  | [_] => true
  | a :: b :: rest => decide (a < b) && keysStrictAsc (b :: rest)

/-- Every node of the subtree has strictly ascending keys. -/
def allNodesAsc : Nat → BNode → Option Bool
  | 0, _ => none
  | fuel + 1, n => do
    let kids ← n.children.mapM (allNodesAsc fuel)
    pure (keysStrictAsc n.keys && kids.all id)

/-- Every non-root node of the subtree has between `t-1` and `2t-1` keys. -/
def allCountOk (t : Nat) : Nat → Bool → BNode → Option Bool
  | 0, _, _ => none
  | fuel + 1, isRoot, n => do
    let kids ← n.children.mapM (allCountOk t fuel false)
    let own := isRoot || (decide (t - 1 ≤ n.keys.length) && decide (n.keys.length ≤ 2 * t - 1))
    pure (own && kids.all id)

/-- Depths (from the given node) of all leaves of the subtree. -/
def leafDepths : Nat → BNode → Option (List Nat)
  | 0, _ => none
  | fuel + 1, n =>
    if n.isLeaf then some [0]
    else do
      let ds ← n.children.mapM (leafDepths fuel)
      pure (ds.flatten.map (· + 1))

/-- All leaves of the tree share one depth. -/
def sameLeafDepth (fuel : Nat) (tr : BTree) : Option Bool :=
  (leafDepths fuel tr.root).map (fun ds => ds.all (fun d => d = ds.headD 0))

/-- The conjunction of the three checked invariants for a whole tree. -/
def treeInvariants (fuel : Nat) (tr : BTree) : Option Bool := do
  let a ← allNodesAsc fuel tr.root
  let c ← allCountOk tr.degree fuel true tr.root
  let d ← sameLeafDepth fuel tr
  pure (a && c && d)

/-- A B-Tree API call, for describing operation sequences. -/
inductive BOp where
  | ins (k : Int) (v : GoStr)
  | del (k : Int)
  deriving Repr, DecidableEq

/-- Runs a sequence of `Insert`/`Delete` calls on a tree (`none` when one
of them panics or fuel runs out). -/
def runBOps (fuel : Nat) : List BOp → BTree → Option BTree
  | [], tr => some tr
  | .ins k v :: rest, tr => btInsert fuel tr k v >>= runBOps fuel rest
  | .del k :: rest, tr => btDelete fuel tr k >>= runBOps fuel rest

/-! ## Concrete executions

The scenarios below run the model on small concrete inputs; every tree
involved has height at most 3, far below `scnFuel`, so fuel exhaustion
cannot occur in any of them.  Byte-list literals stand for the obvious
ASCII strings: `[97] = "a"`, `[98] = "b"`, `[116] = "t"`, `[120] = "x"`,
`[117, 115, 101, 114, 115] = "users"`, `[66] = "B"`. -/

/-- Fuel for the concrete executions. -/
def scnFuel : Nat := 60

/-- A store freshly opened on an empty database file and empty WAL. -/
def freshStore : BTreeKVStore := newBTreeKVStore (newFileDiskManager []) ⟨[]⟩

/-- C1 scenario, step 1: `CreateTable("a", 2)` on the fresh store. -/
def c1r1 : GoResult Unit × BTreeKVStore := kvCreateTableName freshStore [97] 2

/-- C1 scenario, step 2: `CreateTable("b", 2)`. -/
def c1r2 : GoResult Unit × BTreeKVStore := kvCreateTableName c1r1.2 [98] 2

/-- C1 scenario, step 3: `Put("b", 5, "x")`. -/
def c1r3 : Option (GoResult Unit × BTreeKVStore) := kvPut scnFuel c1r2.2 [98] 5 [120]

/-- C1 scenario: the pre-crash store. -/
def c1pre : BTreeKVStore := (c1r3.getD (.err, c1r2.2)).2

/-- C1 scenario: `Get("a", 5)` on the pre-crash store (result only). -/
def c1preGetA : Option (GoResult (GoStr × Bool)) :=
  (kvGet scnFuel c1pre [97] 5).map Prod.fst

/-- C1 scenario: the store reopened after a crash - only the database
file and the WAL file survive; `NewBTreeKVStore` is run on them as in
`kvstore_test.go`. -/
def c1reopen : BTreeKVStore :=
  newBTreeKVStore (newFileDiskManager c1pre.diskManager.file) c1pre.log

/-- C1 scenario: `Load()` on the reopened store. -/
def c1r4 : Option (GoResult Unit × BTreeKVStore) := kvLoad scnFuel c1reopen

/-- C1 scenario: the recovered store. -/
def c1post : BTreeKVStore := (c1r4.getD (.err, c1reopen)).2

/-- C1 scenario: `Get("a", 5)` on the recovered store (result only). -/
def c1postGetA : Option (GoResult (GoStr × Bool)) :=
  (kvGet scnFuel c1post [97] 5).map Prod.fst

/-- C2 scenario: table `t`, then `Put(t,1,"a") .. Put(t,4,"d")`, leaving
key 2 in an internal node of the degree-2 tree. -/
def c2setup : Option (GoResult Unit × BTreeKVStore) := do
  let s1 := kvCreateTableName freshStore [116] 2
  let s2 ← kvPut scnFuel s1.2 [116] 1 [97]
  let s3 ← kvPut scnFuel s2.2 [116] 2 [98]
  let s4 ← kvPut scnFuel s3.2 [116] 3 [99]
  kvPut scnFuel s4.2 [116] 4 [100]

/-- C2 scenario: the transaction queueing the single op `PutBatch(t, 2, "B")`. -/
def c2tx : GoTransaction := txPutBatch beginTransaction [116] 2 [66]

/-- C2 scenario: `Commit()` of that transaction. -/
def c2commit : Option (GoResult Unit × BTreeKVStore) :=
  c2setup >>= fun p => txCommit scnFuel c2tx p.2

/-- C2 scenario: `Get("t", 2)` after the commit (result only). -/
def c2get : Option (Option (GoResult (GoStr × Bool))) :=
  c2commit.map (fun p => (kvGet scnFuel p.2 [116] 2).map Prod.fst)

/-- C3 scenario: insert keys 1-4 (splitting the degree-2 root, which
leaves key 2 in the internal root), then re-insert key 2 with a new
value. -/
def c3tr : Option BTree :=
  runBOps scnFuel
    [.ins 1 [97], .ins 2 [98], .ins 3 [99], .ins 4 [100], .ins 2 [66]] (newBTree 2)

/-- C5 scenario: `CreateTableName("users", 3)` on a fresh store (the
first allocated page id on an empty file is 0). -/
def c5r1 : GoResult Unit × BTreeKVStore :=
  kvCreateTableName freshStore [117, 115, 101, 114, 115] 3

/-- C7 scenario (a): insert keys 1-6, delete 6 (leaving the right-most
leaf of the degree-2 tree with a single key), then delete key 3. -/
def c7tr : Option BTree :=
  runBOps scnFuel [.ins 1 [97], .ins 2 [98], .ins 3 [99], .ins 4 [100], .ins 5 [101],
    .ins 6 [102], .del 6, .del 3] (newBTree 2)

/-- C7 scenario (b): insert keys 1-4, delete 4, then delete the ABSENT
key 5 on the resulting tree (root `[2]` with one-key leaves `[1]`,`[3]`). -/
def c7trAbsent : Option BTree :=
  runBOps scnFuel [.ins 1 [97], .ins 2 [98], .ins 3 [99], .ins 4 [100],
    .del 4, .del 5] (newBTree 2)

/-- C8 scenario: duplicate inserts of key 2 followed by a delete of the
absent key 0, which merges a leaf holding the duplicate into its left
sibling. -/
def c8tr : Option BTree :=
  runBOps scnFuel [.ins 4 [97], .ins 2 [98], .ins 1 [99], .ins 5 [100], .ins 2 [101],
    .ins 2 [102], .del 0] (newBTree 2)

/-- C4 witness data: a PUT record, a line of corrupt bytes
(`corrupted data`), and a DELETE record. -/
def c4acts : List WalAct :=
  [.app ⟨opPUT, 1, [120], [116]⟩,
   .corrupt [99, 111, 114, 114, 117, 112, 116, 32, 100, 97, 116, 97],
   .app ⟨opDELETE, 2, [], [116]⟩]

/-! ## Well-formedness of catalog states and scenario data for C9 and C10 -/

/-- The signed 32-bit range, within which `le4`/`readI32` round-trip. -/
def InI32 (x : Int) : Prop := -(2 ^ 31) ≤ x ∧ x < 2 ^ 31

instance : DecidablePred InI32 := fun x => by
  unfold InI32; infer_instance

/-- Well-formedness of a catalog state as the API produces it: map keys
equal the metadata names, names are pairwise distinct and of `int32`
length, the id fields are in `int32` range, and `createdAt`/`rowCount`
hold the zero values that no code path ever changes. -/
def CatalogOk (c : Catalog) : Prop :=
  (c.tables.map Prod.fst).Nodup ∧
    ∀ p ∈ c.tables, p.1 = p.2.name ∧ (p.2.name.length : Int) < 2 ^ 31 ∧
      InI32 p.2.rootID ∧ InI32 p.2.degree ∧ p.2.createdAt = 0 ∧ p.2.rowCount = 0

instance : DecidablePred CatalogOk := fun c => by
  unfold CatalogOk; infer_instance

/-- C9 counterexample data: a table whose name is 4081 bytes of `a` -
its serialized catalog record is 4097 bytes, one more than `PageSize`. -/
def c9name : GoStr := List.replicate 4081 97

/-- C9 counterexample: the catalog as `CreateTable` builds it. -/
def c9cat : Catalog := (catalogCreateTable newCatalog c9name 3 1).getD newCatalog

/-- Witness catalog for the amended C9 theorem: two small tables as
`Catalog.CreateTable` produces them. -/
def c9wcat : Catalog :=
  ((catalogCreateTable newCatalog [97] 2 1).bind
    (fun c => catalogCreateTable c [98, 99] 3 2)).getD newCatalog

/-- C10 witness scenario: create one table on a fresh store, then drop it. -/
def c10kv : BTreeKVStore := (kvCreateTableName freshStore [116] 2).2

/-! ## Supporting lemmas for the WAL codec -/

theorem stripLit_append (p rest : GoStr) : stripLit p (p ++ rest) = some rest := by
  induction p with
  | nil => rfl
  | cons b bs ih => simp [stripLit, ih]

theorem jsonEscapeAux_plain (s : GoStr) : ∀ (fuel : Nat), PlainJSON s →
    jsonEscapeAux (s.length + fuel) s = s := by
  induction s with
  | nil => intro fuel _; cases fuel <;> rfl
  | cons b bs ih =>
    intro fuel h
    obtain ⟨h1, h2, h3, h4, h5, h6, h7⟩ := h b (List.mem_cons_self b bs)
    have hbs : PlainJSON bs := fun x hx => h x (List.mem_cons_of_mem _ hx)
    have hlen : (b :: bs).length + fuel = (bs.length + fuel) + 1 := by
      rw [List.length_cons]; omega
    rw [hlen]
    show (if b < 128 then
        (if b < 32 then
          if b = 10 then [92, 110]
          else if b = 13 then [92, 114]
          else if b = 9 then [92, 116]
          else u4Escape b
        else if b = 34 then [92, 34]
        else if b = 92 then [92, 92]
        else if b = 60 ∨ b = 62 ∨ b = 38 then u4Escape b
        else [b]) ++ jsonEscapeAux (bs.length + fuel) bs
      else
        match decodeRune (b :: bs) with
        | (r, size) =>
          if size = 1 then [92, 117, 102, 102, 102, 100] ++ jsonEscapeAux (bs.length + fuel) bs
          else if r = 8232 ∨ r = 8233 then
            u4Escape r ++ jsonEscapeAux (bs.length + fuel) (bs.drop (size - 1))
          else (b :: bs.take (size - 1)) ++ jsonEscapeAux (bs.length + fuel) (bs.drop (size - 1)))
      = b :: bs
    rw [if_pos (by omega), if_neg (by omega), if_neg h3, if_neg h4,
      if_neg (by simp [h5, h6, h7]), ih fuel hbs]
    rfl

theorem jsonEscape_plain (s : GoStr) (h : PlainJSON s) : jsonEscape s = s := by
  have h0 := jsonEscapeAux_plain s 0 h
  rw [Nat.add_zero] at h0
  exact h0

theorem unquoteAux_plain (s : GoStr) : ∀ (fuel : Nat) (rest : GoStr), PlainJSON s →
    unquoteAux (s.length + fuel + 1) (s ++ 34 :: rest) = some (s, rest) := by
  induction s with
  | nil =>
    intro fuel rest _
    show unquoteAux (fuel + 1) (34 :: rest) = some ([], rest)
    rfl
  | cons b bs ih =>
    intro fuel rest h
    obtain ⟨h1, h2, h3, h4, h5, h6, h7⟩ := h b (List.mem_cons_self b bs)
    have hbs : PlainJSON bs := fun x hx => h x (List.mem_cons_of_mem _ hx)
    have hlen : (b :: bs).length + fuel + 1 = (bs.length + fuel + 1) + 1 := by
      rw [List.length_cons]; omega
    rw [hlen]
    show (if b = 34 then some ([], bs ++ 34 :: rest)
      else if b = 92 then
        match bs ++ 34 :: rest with
        | [] => none
        | e :: cs =>
          if e = 34 ∨ e = 92 ∨ e = 47 then
            (unquoteAux (bs.length + fuel + 1) cs).map (fun p => (e :: p.1, p.2))
          else if e = 98 then (unquoteAux (bs.length + fuel + 1) cs).map (fun p => (8 :: p.1, p.2))
          else if e = 102 then (unquoteAux (bs.length + fuel + 1) cs).map (fun p => (12 :: p.1, p.2))
          else if e = 110 then (unquoteAux (bs.length + fuel + 1) cs).map (fun p => (10 :: p.1, p.2))
          else if e = 114 then (unquoteAux (bs.length + fuel + 1) cs).map (fun p => (13 :: p.1, p.2))
          else if e = 116 then (unquoteAux (bs.length + fuel + 1) cs).map (fun p => (9 :: p.1, p.2))
          else if e = 117 then
            match getu4 cs with
            | none => none
            | some (rr, rest1) =>
              if 55296 ≤ rr ∧ rr < 57344 then
                match rest1 with
                | 92 :: 117 :: rest2 =>
                  (match getu4 rest2 with
                  | some (rr2, rest3) =>
                    if (55296 ≤ rr ∧ rr < 56320) ∧ (56320 ≤ rr2 ∧ rr2 < 57344) then
                      (unquoteAux (bs.length + fuel + 1) rest3).map
                        (fun p => (encodeRune (65536 + (rr - 55296) * 1024 + (rr2 - 56320)) ++ p.1, p.2))
                    else (unquoteAux (bs.length + fuel + 1) rest1).map (fun p => (encodeRune 65533 ++ p.1, p.2))
                  | none => (unquoteAux (bs.length + fuel + 1) rest1).map (fun p => (encodeRune 65533 ++ p.1, p.2)))
                | _ => (unquoteAux (bs.length + fuel + 1) rest1).map (fun p => (encodeRune 65533 ++ p.1, p.2))
              else (unquoteAux (bs.length + fuel + 1) rest1).map (fun p => (encodeRune rr ++ p.1, p.2))
          else none
      else if b < 32 then none
      else if b < 128 then (unquoteAux (bs.length + fuel + 1) (bs ++ 34 :: rest)).map (fun p => (b :: p.1, p.2))
      else
        match decodeRune (b :: (bs ++ 34 :: rest)) with
        | (r, size) =>
          (unquoteAux (bs.length + fuel + 1) ((bs ++ 34 :: rest).drop (size - 1))).map
            (fun p => (encodeRune r ++ p.1, p.2)))
      = some (b :: bs, rest)
    rw [if_neg h3, if_neg h4, if_neg (by omega), if_pos (by omega),
      ih fuel rest hbs]
    rfl

theorem unquote_plain (s rest : GoStr) (h : PlainJSON s) :
    unquote (s ++ 34 :: rest) = some (s, rest) := by
  unfold unquote
  have hlen : (s ++ 34 :: rest).length + 1 = s.length + (rest.length + 1) + 1 := by
    rw [List.length_append, List.length_cons]
  rw [hlen]
  exact unquoteAux_plain s (rest.length + 1) rest h

theorem valOfDigits_append (s1 s2 : GoStr) (acc : Nat) :
    valOfDigits (s1 ++ s2) acc = valOfDigits s2 (valOfDigits s1 acc) := by
  simp [valOfDigits, List.foldl_append]

theorem natDecAux_digits (f : Nat) : ∀ n, n < 10 ^ f → ∀ b ∈ natDecAux f n, isDigit b := by
  induction f with
  | zero => intro n hn b hb; simp [natDecAux] at hb
  | succ f ih =>
    intro n hn b hb
    by_cases h10 : n < 10
    · simp [natDecAux, h10] at hb
      subst hb; simp [isDigit]; omega
    · simp [natDecAux, h10] at hb
      rcases hb with hb | hb
      · have hdiv : n / 10 < 10 ^ f := by
          have : n < 10 ^ f * 10 := by rw [pow_succ] at hn; omega
          exact Nat.div_lt_of_lt_mul (by omega)
        exact ih (n / 10) hdiv b hb
      · subst hb; simp [isDigit]; omega

theorem valOfDigits_natDecAux (f : Nat) : ∀ n acc, n < 10 ^ f →
    valOfDigits (natDecAux f n) acc = acc * 10 ^ (natDecAux f n).length + n := by
  induction f with
  | zero =>
    intro n acc hn
    have : n = 0 := by omega
    subst this
    simp [natDecAux, valOfDigits]
  | succ f ih =>
    intro n acc hn
    by_cases h10 : n < 10
    · simp [natDecAux, h10, valOfDigits]
    · have hdiv : n / 10 < 10 ^ f := by
        have : n < 10 ^ f * 10 := by rw [pow_succ] at hn; omega
        exact Nat.div_lt_of_lt_mul (by omega)
      have hrw : natDecAux (f + 1) n = natDecAux f (n / 10) ++ [48 + n % 10] := by
        simp [natDecAux, h10]
      rw [hrw, valOfDigits_append, ih (n / 10) acc hdiv]
      simp [valOfDigits, List.length_append]
      ring_nf
      omega

theorem digitsVal_all_digits (s1 s2 : GoStr) (acc : Nat)
    (h : ∀ b ∈ s1, isDigit b) :
    digitsVal (s1 ++ s2) acc = digitsVal s2 (valOfDigits s1 acc) := by
  induction s1 generalizing acc with
  | nil => rfl
  | cons b bs ih =>
    have hb : isDigit b = true := h b (List.mem_cons_self b bs)
    simp only [List.cons_append, digitsVal, hb, if_true, valOfDigits, List.foldl_cons]
    exact ih _ (fun x hx => h x (List.mem_cons_of_mem _ hx))

/-- `NonDigitHead` holds for anything starting with a comma byte. -/
theorem nonDigitHead_append44 (a : GoStr) : NonDigitHead ([44, 34] ++ a) :=
  Or.inr ⟨44, 34 :: a, rfl, by simp [isDigit]⟩

theorem digitsVal_stop (s : GoStr) (acc : Nat) (h : NonDigitHead s) :
    digitsVal s acc = (acc, s) := by
  rcases h with rfl | ⟨b, bs, rfl, hb⟩
  · rfl
  · simp [digitsVal, hb]

theorem natDecDigits_spec (n : Nat) :
    (∀ b ∈ natDecDigits n, isDigit b) ∧ valOfDigits (natDecDigits n) 0 = n ∧
      natDecDigits n ≠ [] := by
  have hn : n < 10 ^ (n + 1) := by
    have h1 : n < 10 ^ n := Nat.lt_pow_self (by omega) n
    have h2 : 10 ^ n ≤ 10 ^ (n + 1) := Nat.pow_le_pow_right (by omega) (by omega)
    omega
  refine ⟨natDecAux_digits (n + 1) n hn, ?_, ?_⟩
  · rw [natDecDigits, valOfDigits_natDecAux (n + 1) n 0 hn]; simp
  · rw [natDecDigits]
    by_cases h10 : n < 10 <;> simp [natDecAux, h10]

theorem digitsVal_natDec (n : Nat) (rest : GoStr) (h : NonDigitHead rest) :
    ∀ d tail, natDecDigits n = d :: tail →
      digitsVal (tail ++ rest) (d - 48) = (n, rest) := by
  intro d tail hdt
  obtain ⟨hdig, hval, _⟩ := natDecDigits_spec n
  have htail : ∀ b ∈ tail, isDigit b := fun b hb => hdig b (hdt ▸ List.mem_cons_of_mem _ hb)
  rw [digitsVal_all_digits tail rest _ htail, digitsVal_stop _ _ h]
  have hv : valOfDigits tail (d - 48) = n := by
    have hv0 : valOfDigits (d :: tail) 0 = n := hdt ▸ hval
    simpa [valOfDigits] using hv0
  rw [hv]

theorem parseIntDec_intDec (k : Int) (rest : GoStr) (h : NonDigitHead rest) :
    parseIntDec (intDec k ++ rest) = some (k, rest) := by
  by_cases hk : k < 0
  · have hne : intDec k = 45 :: natDecDigits (-k).toNat := by
      simp [intDec, hk]
    obtain ⟨hdig, _, hnil⟩ := natDecDigits_spec (-k).toNat
    obtain ⟨d, tail, hdt⟩ : ∃ d tail, natDecDigits (-k).toNat = d :: tail := by
      cases hx : natDecDigits (-k).toNat with
      | nil => exact absurd hx hnil
      | cons d tail => exact ⟨d, tail, rfl⟩
    have hd : isDigit d = true := hdig d (hdt ▸ List.mem_cons_self d tail)
    rw [hne, hdt]
    simp only [List.cons_append, parseIntDec, if_pos rfl, hd, if_true]
    rw [digitsVal_natDec (-k).toNat rest h d tail hdt]
    simp
    omega
  · have hne : intDec k = natDecDigits k.toNat := by
      simp [intDec, hk]
    obtain ⟨hdig, _, hnil⟩ := natDecDigits_spec k.toNat
    obtain ⟨d, tail, hdt⟩ : ∃ d tail, natDecDigits k.toNat = d :: tail := by
      cases hx : natDecDigits k.toNat with
      | nil => exact absurd hx hnil
      | cons d tail => exact ⟨d, tail, rfl⟩
    have hd : isDigit d = true := hdig d (hdt ▸ List.mem_cons_self d tail)
    have hd45 : d ≠ 45 := by
      simp [isDigit, decide_eq_true_eq] at hd
      omega
    rw [hne, hdt]
    simp only [List.cons_append, parseIntDec, if_neg hd45, hd, if_true]
    rw [digitsVal_natDec k.toNat rest h d tail hdt]
    simp
    omega

/-- The modelled JSON codec round-trips on every entry whose string
fields the encoder emits verbatim. -/
theorem decodeEntry_encodeEntry (e : LogEntry) (h : EntryOk e) :
    decodeEntry (encodeEntry e) = some e := by
  obtain ⟨op, k, v, tb⟩ := e
  obtain ⟨hop, hval, htab⟩ := h
  simp only at hop hval htab
  have hEop : jsonEscape op = op := jsonEscape_plain op hop
  have hEtb : jsonEscape tb = tb := jsonEscape_plain tb htab
  have hf1 : jsonEscape fieldOperation = fieldOperation := by decide
  have hf2 : jsonEscape fieldKey = fieldKey := by decide
  have hf3 : jsonEscape fieldTable = fieldTable := by decide
  have hf4 : jsonEscape fieldValue = fieldValue := by decide
  by_cases hv : v.isEmpty
  · have hvnil : v = [] := by
      cases v with
      | nil => rfl
      | cons a as => simp [List.isEmpty] at hv
    subst hvnil
    have henc : encodeEntry ⟨op, k, [], tb⟩ =
        ([123, 34] ++ fieldOperation ++ [34, 58, 34]) ++ (op ++ 34 ::
          (([44, 34] ++ fieldKey ++ [34, 58]) ++ (intDec k ++
            (([44, 34] ++ fieldTable ++ [34, 58, 34]) ++ (tb ++ 34 :: [125]))))) := by
      simp only [encodeEntry, jsonStr, hEop, hEtb, hf1, hf2, hf3, hf4]
      simp [fieldOperation, fieldKey, fieldTable, fieldValue]
    rw [decodeEntry, henc, stripLit_append]
    simp only [Option.bind_eq_bind, Option.some_bind]
    rw [unquote_plain op _ hop]
    simp only [Option.some_bind]
    rw [stripLit_append]
    simp only [Option.some_bind]
    have hp := parseIntDec_intDec k
      ([44, 34] ++ fieldTable ++ [34, 58, 34] ++ (tb ++ 34 :: [125]))
      (nonDigitHead_append44 _)
    rw [hp]
    simp only [Option.some_bind]
    have hvalNe : stripLit ([44, 34] ++ fieldValue ++ [34, 58, 34])
        (([44, 34] ++ fieldTable ++ [34, 58, 34]) ++ (tb ++ 34 :: [125])) = none := by
      simp [stripLit, fieldValue, fieldTable]
    rw [hvalNe, stripLit_append]
    simp only [Option.some_bind]
    rw [unquote_plain tb _ htab]
    simp [stripLit]
  · have hEv : jsonEscape v = v := jsonEscape_plain v hval
    have henc : encodeEntry ⟨op, k, v, tb⟩ =
        ([123, 34] ++ fieldOperation ++ [34, 58, 34]) ++ (op ++ 34 ::
          (([44, 34] ++ fieldKey ++ [34, 58]) ++ (intDec k ++
            (([44, 34] ++ fieldValue ++ [34, 58, 34]) ++ (v ++ 34 ::
              (([44, 34] ++ fieldTable ++ [34, 58, 34]) ++ (tb ++ 34 :: [125]))))))) := by
      simp only [encodeEntry, jsonStr, hEop, hEtb, hEv, hf1, hf2, hf3, hf4]
      simp [hv, fieldOperation, fieldKey, fieldTable, fieldValue]
    rw [decodeEntry, henc, stripLit_append]
    simp only [Option.bind_eq_bind, Option.some_bind]
    rw [unquote_plain op _ hop]
    simp only [Option.some_bind]
    rw [stripLit_append]
    simp only [Option.some_bind]
    have hp := parseIntDec_intDec k
      ([44, 34] ++ fieldValue ++ [34, 58, 34] ++ (v ++ 34 ::
        (([44, 34] ++ fieldTable ++ [34, 58, 34]) ++ (tb ++ 34 :: [125]))))
      (nonDigitHead_append44 _)
    rw [hp]
    simp only [Option.some_bind]
    rw [stripLit_append]
    simp only [Option.some_bind]
    rw [unquote_plain v _ hval]
    simp only [Option.some_bind]
    rw [stripLit_append]
    simp only [Option.some_bind]
    rw [unquote_plain tb _ htab]
    simp [stripLit]

theorem walReplay_runWalActs (acts : List WalAct) (h : ∀ a ∈ acts, actOk a) :
    ∀ log : AppendOnlyLog,
      walReplay (runWalActs log acts) = walReplay log ++ appendedEntries acts := by
  induction acts with
  | nil => intro log; simp [runWalActs, appendedEntries, walReplay]
  | cons a rest ih =>
    intro log
    have ha := h a (List.mem_cons_self a rest)
    have hrest : ∀ b ∈ rest, actOk b := fun b hb => h b (List.mem_cons_of_mem _ hb)
    cases a with
    | app e =>
      rw [runWalActs, ih hrest]
      have he : decodeEntry (encodeEntry e) = some e := decodeEntry_encodeEntry e ha
      simp [walReplay, walAppend, List.filterMap_append, he, appendedEntries]
    | corrupt s =>
      rw [runWalActs, ih hrest]
      have hs : decodeEntry s = none := ha
      simp [walReplay, List.filterMap_append, hs, appendedEntries]

/-! ## Supporting lemmas for the catalog codec (C9) -/

theorem u32ofInt_lt (x : Int) : u32ofInt x < 2 ^ 32 := by
  unfold u32ofInt
  omega

theorem readI32_le4 (x : Int) (rest : GoStr) (h : InI32 x) :
    readI32 (le4 x ++ rest) = some (x, rest) := by
  obtain ⟨h1, h2⟩ := h
  have hm : u32ofInt x < 2 ^ 32 := u32ofInt_lt x
  unfold le4
  simp only [List.cons_append, List.nil_append, readI32, Option.some.injEq, Prod.mk.injEq]
  refine ⟨?_, trivial⟩
  unfold decodeI32 i32ofU32
  set m := u32ofInt x with hmdef
  have hsum : m % 256 % 256 + 256 * (m / 256 % 256 % 256) +
      256 ^ 2 * (m / 256 ^ 2 % 256 % 256) + 256 ^ 3 * (m / 256 ^ 3 % 256 % 256) = m := by
    omega
  rw [hsum]
  have hm2 : m = (x % ((2 ^ 32 : Nat) : Int)).toNat := hmdef
  split <;> omega

theorem goReadAux_append (s rest : GoStr) :
    goReadAux s.length (s ++ rest) = (s, rest) := by
  induction s with
  | nil => rfl
  | cons b bs ih => simp [goReadAux, ih]

theorem goRead_append (s rest : GoStr) (h : s ++ rest ≠ []) :
    goRead s.length (s ++ rest) = some (s, rest) := by
  unfold goRead
  rw [if_neg (by simpa using h), goReadAux_append]

/-- `alistInsert` on a fresh key appends. -/
theorem alistInsert_notMem {α : Type} (l : List (GoStr × α)) (k : GoStr) (v : α)
    (h : k ∉ l.map Prod.fst) : alistInsert l k v = l ++ [(k, v)] := by
  unfold alistInsert
  have hfind : l.find? (fun p => p.1 = k) = none := by
    rw [List.find?_eq_none]
    intro p hp hdec
    simp only [decide_eq_true_eq] at hdec
    exact h (hdec ▸ List.mem_map_of_mem Prod.fst hp)
  simp [hfind]

/-- `readCatEntry` inverts `serializeCatEntry` for a well-formed entry,
whatever bytes follow. -/
theorem readCatEntry_serialized (m : TableMetadata) (rest : GoStr)
    (hlen : (m.name.length : Int) < 2 ^ 31) (hroot : InI32 m.rootID)
    (hdeg : InI32 m.degree) (hca : m.createdAt = 0) (hrc : m.rowCount = 0) :
    readCatEntry (serializeCatEntry m ++ rest) = some ((m.name, m), rest) := by
  rw [readCatEntry, serializeCatEntry]
  rw [List.append_assoc, List.append_assoc, List.append_assoc]
  rw [readI32_le4 _ _ ⟨by omega, hlen⟩]
  simp only [Option.bind_eq_bind, Option.some_bind]
  rw [if_neg (by omega)]
  have htoNat : ((m.name.length : Int)).toNat = m.name.length := by omega
  rw [htoNat, goRead_append m.name _ (by simp [le4])]
  simp only [Option.some_bind]
  rw [readI32_le4 _ _ hroot]
  simp only [Option.some_bind]
  rw [readI32_le4 _ _ hdeg]
  simp only [Option.some_bind]
  obtain ⟨nm, rid, dg, ca, rc⟩ := m
  simp only at hca hrc
  subst hca
  subst hrc
  rfl

/-- The entry loop of `Catalog.Load` parses back exactly what
`Catalog.Save` wrote, for well-formed entries, regardless of what bytes
follow. -/
theorem readCatEntries_serialized (ents : List (GoStr × TableMetadata)) :
    ∀ (acc : List (GoStr × TableMetadata)) (pad : GoStr),
      (∀ p ∈ ents, p.1 = p.2.name ∧ (p.2.name.length : Int) < 2 ^ 31 ∧
        InI32 p.2.rootID ∧ InI32 p.2.degree ∧ p.2.createdAt = 0 ∧ p.2.rowCount = 0) →
      (acc.map Prod.fst ++ ents.map Prod.fst).Nodup →
      readCatEntries ents.length
        ((ents.map (fun p => serializeCatEntry p.2)).flatten ++ pad) acc =
        (acc ++ ents, false) := by
  induction ents with
  | nil => intro acc pad _ _; simp [readCatEntries]
  | cons p rest ih =>
    intro acc pad hok hnodup
    have hp := hok p (List.mem_cons_self p rest)
    obtain ⟨key, meta⟩ := p
    obtain ⟨hname, hlen, hroot, hdeg, hca, hrc⟩ := hp
    simp only at hname hlen hroot hdeg hca hrc
    subst hname
    simp only [List.map_cons, List.flatten_cons, List.append_assoc]
    rw [List.length_cons, readCatEntries]
    rw [readCatEntry_serialized meta _ hlen hroot hdeg hca hrc]
    have hfresh : meta.name ∉ acc.map Prod.fst := by
      intro hmem
      rw [List.nodup_append] at hnodup
      exact hnodup.2.2 hmem (by simp)
    show readCatEntries rest.length
        ((rest.map (fun p => serializeCatEntry p.2)).flatten ++ pad)
        (alistInsert acc meta.name meta) = (acc ++ (meta.name, meta) :: rest, false)
    rw [alistInsert_notMem acc meta.name meta hfresh]
    rw [ih (acc ++ [(meta.name, meta)]) pad
      (fun q hq => hok q (List.mem_cons_of_mem _ hq))
      (by
        simp only [List.map_append, List.map_cons, List.map_nil, List.append_assoc,
          List.nil_append, List.singleton_append] at hnodup ⊢
        exact hnodup)]
    simp

/-- `Catalog.Save` always succeeds (page id 0 is non-negative) and leaves
the fitted catalog bytes as page 0 of the file. -/
theorem catalogSave_spec (c : Catalog) (dm : FileDiskManager) :
    ∃ dm', catalogSave c dm = some dm' ∧
      dm'.file.get? 0 = some (fitPage (catalogSaveBytes c)) := by
  unfold catalogSave FileDiskManager.writePage
  rw [if_neg (by omega)]
  refine ⟨_, rfl, ?_⟩
  cases hf : dm.file with
  | nil => simp [hf]
  | cons p ps => simp [hf]

/-- There are at least as many serialized bytes as tables. -/
theorem tables_le_saveBytes (c : Catalog) :
    c.tables.length ≤ (catalogSaveBytes c).length := by
  unfold catalogSaveBytes
  rw [List.length_append]
  have h : ∀ ents : List (GoStr × TableMetadata),
      ents.length ≤ ((ents.map (fun p => serializeCatEntry p.2)).flatten).length := by
    intro ents
    induction ents with
    | nil => simp
    | cons p rest ih =>
      simp only [List.map_cons, List.flatten_cons, List.length_append, List.length_cons]
      have : (serializeCatEntry p.2).length = 12 + p.2.name.length := by
        simp [serializeCatEntry, le4]
        omega
      omega
  have := h c.tables
  omega

theorem c9cat_eq : c9cat = ⟨[(c9name,
    { name := c9name, rootID := 1, degree := 3, createdAt := 0, rowCount := 0 })]⟩ := rfl

theorem le4_length (x : Int) : (le4 x).length = 4 := rfl

theorem c9name_length : c9name.length = 4081 := by
  rw [c9name, List.length_replicate]

/-- The truncated page that `Save` leaves for the counterexample catalog:
the final byte of the degree field is cut off. -/
theorem c9_fitPage_truncates :
    fitPage (catalogSaveBytes c9cat) =
      le4 1 ++ (le4 4081 ++ (c9name ++ (le4 1 ++ [3, 0, 0]))) := by
  have hn : ((c9name.length : Nat) : Int) = 4081 := by
    rw [c9name_length]; norm_num
  have hb : catalogSaveBytes c9cat =
      le4 1 ++ (le4 4081 ++ (c9name ++ (le4 1 ++ le4 3))) := by
    rw [c9cat_eq]
    simp only [catalogSaveBytes, serializeCatEntry, List.map_cons, List.map_nil,
      List.flatten_cons, List.flatten_nil, List.append_nil, List.length_cons,
      List.length_nil, List.append_assoc, Nat.zero_add, Nat.cast_one]
    rw [hn]
  have hlen : (catalogSaveBytes c9cat).length = 4097 := by
    rw [hb]
    simp only [List.length_append, le4_length, c9name_length]
  unfold fitPage
  rw [hlen, hb]
  have h40 : PageSize - 4097 = 0 := by decide
  rw [h40, List.replicate_zero, List.append_nil]
  rw [List.take_append_eq_append_take,
    List.take_of_length_le (by rw [le4_length]; decide)]
  rw [List.take_append_eq_append_take,
    List.take_of_length_le (by rw [le4_length]; decide)]
  rw [List.take_append_eq_append_take,
    List.take_of_length_le (by simp only [le4_length, c9name_length]; decide)]
  rw [List.take_append_eq_append_take,
    List.take_of_length_le (by simp only [le4_length, c9name_length]; decide)]
  have hlens : PageSize - (le4 1).length - (le4 4081).length - c9name.length
      - (le4 1).length = 3 := by
    simp only [le4_length, c9name_length]
    decide
  have h3 : (le4 3).take 3 = [3, 0, 0] := by decide
  rw [hlens, h3]

/-! ## Supporting lemmas for DropTable and Load (C10) -/

/-- Removing a key makes its lookup miss. -/
theorem alistLookup_remove {α : Type} (l : List (GoStr × α)) (k : GoStr) :
    alistLookup (alistRemove l k) k = none := by
  unfold alistLookup alistRemove
  rw [List.find?_eq_none.mpr]
  · rfl
  · intro p hp
    have h1 := List.of_mem_filter hp
    simp only [decide_not, Bool.not_eq_true', decide_eq_false_iff_not] at h1
    simp [h1]

/-- The table-materializing loop of `Load` never touches the catalog. -/
theorem kvLoadTables_catalog (fuel : Nat) :
    ∀ (ents : List (GoStr × TableMetadata)) (kv : BTreeKVStore),
      ((kvLoadTables fuel ents kv).2).catalog = kv.catalog := by
  intro ents
  induction ents with
  | nil => intro kv; rfl
  | cons p rest ih =>
    intro kv
    obtain ⟨name, meta⟩ := p
    simp only [kvLoadTables]
    split
    · rfl
    · split
      · rfl
      · exact ih _

/-- The WAL-replay loop of `Load` never touches the catalog. -/
theorem kvReplayEntries_catalog (fuel : Nat) :
    ∀ (es : List LogEntry) (kv : BTreeKVStore) (r : GoResult Unit × BTreeKVStore),
      kvReplayEntries fuel es kv = some r → r.2.catalog = kv.catalog := by
  intro es
  induction es with
  | nil =>
    intro kv r hr
    simp only [kvReplayEntries, Option.some.injEq] at hr
    rw [← hr]
  | cons e rest ih =>
    intro kv r hr
    simp only [kvReplayEntries] at hr
    split at hr
    · exact ih _ _ hr
    · split at hr
      · simp only [Option.some.injEq] at hr; rw [← hr]
      · split at hr
        · simp only [Option.some.injEq] at hr; rw [← hr]
        · split at hr
          · exact absurd hr (by simp)
          · have h2 := ih _ _ hr; exact h2
          · have h2 := ih _ _ hr; exact h2
    · split at hr
      · exact absurd hr (by simp)
      · have h2 := ih _ _ hr; exact h2
      · have h2 := ih _ _ hr; exact h2

/-- `Catalog.Load` twice from the same disk is the same as once: when the
page read succeeds the result ignores the in-memory starting state, and
when it fails the starting state is kept. -/
theorem catalogLoad_idem (c : Catalog) (dm : FileDiskManager) :
    catalogLoad (catalogLoad c dm).1 dm = catalogLoad c dm := by
  cases h : dm.readPage 0 with
  | none => simp [catalogLoad, h]
  | some data => simp [catalogLoad, h]

/-- A successful `DropTable` only rewrites the two in-memory maps. -/
theorem kvDropTable_ok (kv : BTreeKVStore) (name : GoStr)
    (h : (kvDropTable kv name).1 = GoResult.ok ()) :
    ∃ cat1, catalogDropTable kv.catalog name = some cat1 ∧
      (kvDropTable kv name).2 =
        { kv with catalog := cat1, tables := alistRemove kv.tables name } := by
  unfold kvDropTable at h ⊢
  cases h1 : alistLookup kv.tables name with
  | none => rw [h1] at h; simp at h
  | some bt =>
    cases h2 : catalogDropTable kv.catalog name with
    | none => rw [h1] at h; rw [h2] at h; simp at h
    | some cat1 => exact ⟨cat1, rfl, rfl⟩

/-- Whatever `Load` returns on a freshly reopened store, its catalog is
exactly what `Catalog.Load` reads from the disk image: the table loop
and the WAL replay never write the catalog. -/
theorem kvLoad_catalog (fuel : Nat) (file : List GoStr) (log : AppendOnlyLog)
    (r : GoResult Unit × BTreeKVStore)
    (hr : kvLoad fuel (newBTreeKVStore (newFileDiskManager file) log) = some r) :
    r.2.catalog = (catalogLoad newCatalog (newFileDiskManager file)).1 := by
  unfold kvLoad at hr
  have hCL : catalogLoad (newBTreeKVStore (newFileDiskManager file) log).catalog
      (newBTreeKVStore (newFileDiskManager file) log).diskManager
      = catalogLoad newCatalog (newFileDiskManager file) :=
    catalogLoad_idem newCatalog (newFileDiskManager file)
  rw [hCL] at hr
  rcases hE : catalogLoad newCatalog (newFileDiskManager file) with ⟨cat2, errb⟩
  rw [hE] at hr
  show r.2.catalog = cat2
  cases errb with
  | true =>
    replace hr : some (GoResult.err,
        { newBTreeKVStore (newFileDiskManager file) log with catalog := cat2 }) = some r := hr
    injection hr with hr2
    rw [← hr2]
  | false =>
    replace hr : (match kvLoadTables fuel cat2.tables
        { newBTreeKVStore (newFileDiskManager file) log with catalog := cat2 } with
      | (GoResult.err, kv2) => some (GoResult.err, kv2)
      | (GoResult.ok _, kv2) => kvReplayEntries fuel (walReplay kv2.log) kv2) = some r := hr
    rcases hLT : kvLoadTables fuel cat2.tables
        { newBTreeKVStore (newFileDiskManager file) log with catalog := cat2 } with ⟨res2, kv2⟩
    rw [hLT] at hr
    have hkv2cat : kv2.catalog = cat2 := by
      have h3 := kvLoadTables_catalog fuel cat2.tables
        { newBTreeKVStore (newFileDiskManager file) log with catalog := cat2 }
      rw [hLT] at h3
      exact h3
    cases res2 with
    | err =>
      replace hr : some (GoResult.err, kv2) = some r := hr
      injection hr with hr2
      rw [← hr2]
      exact hkv2cat
    | ok u =>
      replace hr : kvReplayEntries fuel (walReplay kv2.log) kv2 = some r := hr
      rw [kvReplayEntries_catalog fuel (walReplay kv2.log) kv2 r hr, hkv2cat]

/-! ## Claim theorems -/

/-- C1: the claim states that after a sequence of successful operations,
crashing, reopening and `Load`ing yields a state in which every `Get`
returns the same result as before the crash.  The code violates this:
`CreateTableName` passes its arguments to `Catalog.CreateTable` in the
wrong order, so both tables `a` and `b` (degree 2) are recorded with root
page id 2; the recovery therefore deserializes table `b`'s flushed tree
as table `a`'s, and `Get("a", 5)`, which returned `("", false)` before
the crash (all three operations having succeeded), returns `("x", true)`
after it. -/
theorem c1_recovery_equivalence_fails :
    c1r1.1 = .ok () ∧ c1r2.1 = .ok () ∧ c1r3.map Prod.fst = some (.ok ()) ∧
    c1r4.map Prod.fst = some (.ok ()) ∧
    c1preGetA = some (.ok ([], false)) ∧
    c1postGetA = some (.ok ([120], true)) := by
  decide

/-- C2: the claim states that after a successful `Commit()` every queued
operation is observable via `Get`.  The code violates this: with table
`t` holding keys 1-4 (so that key 2 sits in the internal root of the
degree-2 tree), committing the single-op batch `PutBatch(t, 2, "B")`
succeeds, yet `Get(t, 2)` still returns the OLD value `"b"` - the insert
only updated a duplicate left in a leaf, while `Search` answers from the
stale internal node. -/
theorem c2_commit_observability_fails :
    c2setup.map Prod.fst = some (.ok ()) ∧
    c2commit.map Prod.fst = some (.ok ()) ∧
    c2get = some (some (.ok ([98], true))) := by
  decide

/-- C3: the claim states that `Search(k)` returns the value of the most
recent `Insert(k, v)`.  The code violates this: after inserting keys 1-4
(key 2 ends in the internal root) and then `Insert(2, "B")`, `Search(2)`
returns the original value `"b"` - `insertNonFull` checks for duplicates
only in leaves, so the re-insert adds a duplicate below while `Search`
finds the stale internal entry. -/
theorem c3_insert_replace_fails :
    (c3tr.map (fun tr => (btSearch scnFuel tr 2).join)) = some (some [98]) := by
  decide

/-- C5: the claim states that `CreateTable(name, degree)` records a
catalog entry whose `root_id` equals the freshly allocated page id and
whose `degree` equals the requested degree.  The code violates this:
`kvstore.CreateTableName` calls `Catalog.CreateTable(name, rootID,
int32(degree))` against the signature `CreateTable(name, degree,
rootID)`, so on a fresh store `CreateTableName("users", 3)` (allocated
page id 0) succeeds but records `root_id = 3` and `degree = 0` - the two
fields swapped. -/
theorem c5_create_table_swaps_fields :
    c5r1.1 = .ok () ∧ freshStore.diskManager.allocatePage.1 = 0 ∧
    (catalogGet c5r1.2.catalog [117, 115, 101, 114, 115]).map
      (fun m => (m.rootID, m.degree)) = some ((3 : Int), (0 : Int)) := by
  decide

/-- C6: the claim states that `AllocatePage` never returns page id 0,
which is reserved for the catalog.  The code violates this: a disk
manager opened on an empty file starts its next-id counter at
`size/PageSize = 0`, and the first `AllocatePage` (empty freelist)
returns page 0. -/
theorem c6_allocate_page_returns_zero :
    (newFileDiskManager []).allocatePage.1 = 0 := by
  decide

/-- C7: the claim states that after `Delete(k)`, `Search(k)` returns
`found = false`, and that deleting an absent key is a no-op.  The code
violates both parts.  (a) After inserting keys 1-6 and deleting 6, the
tree is `[2,4] / [1],[3],[5]`; `Delete(3)` merges children 0 and 1 but
then recurses into `children[1]` - now the subtree `[5]` - so key 3
survives and `Search(3)` still finds it.  (b) On the tree
`[2] / [1],[3]` (reached by inserting 1-4 and deleting 4), deleting the
absent key 5 panics with an index-out-of-range (modelled as `none`)
instead of being a no-op. -/
theorem c7_delete_fails :
    (c7tr.map (fun tr => (btSearch scnFuel tr 3).join)) = some (some [99]) ∧
    c7trAbsent.isNone = true := by
  decide

/-- C8: the claim states that every sequence of `Insert`/`Delete` calls
preserves the structural invariants (strictly ascending keys in every
node, `t-1..2t-1` keys in every non-root node, all leaves at one depth).
The code violates this: inserting 4, 2, 1, 5, then key 2 twice more
(duplicates of the internal key 2 accumulate in a leaf), then deleting
the absent key 0, merges `[1]`, separator 2 and the duplicate-holding
leaf `[2]` into the single node `[1, 2, 2]`, whose keys are not strictly
ascending. -/
theorem c8_invariants_fail :
    (c8tr.map (fun tr => treeInvariants scnFuel tr)) = some (some false) ∧
    (c8tr.map (fun tr => allNodesAsc scnFuel tr.root)) = some (some false) := by
  decide

/-- The amended C9 claim: for every API-well-formed catalog state whose
serialized form fits in one page, `Save` succeeds and a reopened
`Load` reconstitutes exactly the same name-to-metadata map (with no
error), whatever catalog state the loader starts from. -/
theorem c9_catalog_roundtrip (c : Catalog) (dm : FileDiskManager)
    (hok : CatalogOk c) (hfit : (catalogSaveBytes c).length ≤ PageSize) :
    ∃ dm', catalogSave c dm = some dm' ∧
      ∀ c0 : Catalog, catalogLoad c0 (newFileDiskManager dm'.file) = (c, false) := by
  obtain ⟨dm', hsave, hget⟩ := catalogSave_spec c dm
  refine ⟨dm', hsave, fun c0 => ?_⟩
  have hread : (newFileDiskManager dm'.file).readPage 0 = some (fitPage (catalogSaveBytes c)) := by
    unfold FileDiskManager.readPage newFileDiskManager
    rw [if_neg (by omega)]
    simpa using hget
  have hcount : InI32 (c.tables.length : Int) := by
    have h1 := tables_le_saveBytes c
    have h2 : PageSize = 4096 := rfl
    constructor <;> omega
  have hfitEq : fitPage (catalogSaveBytes c) =
      catalogSaveBytes c ++ List.replicate (PageSize - (catalogSaveBytes c).length) 0 := by
    unfold fitPage
    rw [List.take_of_length_le hfit]
  have htoNat : ((c.tables.length : Int)).toNat = c.tables.length := by omega
  obtain ⟨tabs⟩ := c
  rw [catalogLoad, hread, hfitEq]
  unfold catalogSaveBytes
  rw [List.append_assoc]
  simp only [readI32_le4 _ _ hcount]
  rw [if_neg (show ¬ ((tabs.length : Int) < 0) by omega)]
  rw [htoNat]
  rw [readCatEntries_serialized tabs [] _ (fun p hp => hok.2 p hp)
    (by simpa using hok.1)]
  simp

/-- The C9 counterexample: one table whose 4081-byte name makes the
serialized catalog 4097 bytes long.  `Save` reports success, but the
single-page write truncates the buffer, and a reopened `Load` fails with
an error and reconstructs an empty map instead of this one-table map. -/
theorem c9_save_load_loses_table :
    c9cat.tables.length = 1 ∧
    ∃ dm', catalogSave c9cat (newFileDiskManager []) = some dm' ∧
      catalogLoad newCatalog (newFileDiskManager dm'.file) = (⟨[]⟩, true) := by
  refine ⟨by rw [c9cat_eq]; rfl, ?_⟩
  obtain ⟨dm', hsave, hget⟩ := catalogSave_spec c9cat (newFileDiskManager [])
  refine ⟨dm', hsave, ?_⟩
  have hread : (newFileDiskManager dm'.file).readPage 0 =
      some (fitPage (catalogSaveBytes c9cat)) := by
    unfold FileDiskManager.readPage newFileDiskManager
    rw [if_neg (by omega)]
    simpa using hget
  rw [catalogLoad, hread, c9_fitPage_truncates]
  have hc1 : InI32 1 := by constructor <;> decide
  simp only [readI32_le4 _ _ hc1]
  show (if (1 : Int) < 0 then (Catalog.mk [], false)
    else
      match readCatEntries (1 : Int).toNat
          (le4 4081 ++ (c9name ++ (le4 1 ++ [3, 0, 0]))) [] with
      | (ents, err) => (Catalog.mk ents, err)) = (Catalog.mk [], true)
  rw [if_neg (by omega)]
  have h1 : (1 : Int).toNat = 1 := rfl
  rw [h1]
  rw [readCatEntries]
  have hentry : readCatEntry (le4 4081 ++ (c9name ++ (le4 1 ++ [3, 0, 0]))) = none := by
    rw [readCatEntry]
    rw [readI32_le4 4081 _ (by constructor <;> omega)]
    simp only [Option.bind_eq_bind, Option.some_bind]
    rw [if_neg (by omega)]
    have ht : ((4081 : Int)).toNat = c9name.length := by rw [c9name_length]; decide
    rw [ht, goRead_append c9name _ (by simp)]
    simp only [Option.some_bind]
    rw [readI32_le4 1 _ (by constructor <;> omega)]
    simp only [Option.some_bind]
    rfl
  rw [hentry]

/-- Witness for the amended C9 theorem: a two-table catalog that fits in
a page round-trips exactly. -/
theorem c9_catalog_roundtrip_witness :
    CatalogOk c9wcat ∧ (catalogSaveBytes c9wcat).length ≤ PageSize ∧
    (∃ dm', catalogSave c9wcat (newFileDiskManager []) = some dm' ∧
      ∀ c0 : Catalog, catalogLoad c0 (newFileDiskManager dm'.file) = (c9wcat, false)) :=
  ⟨by decide, by decide,
    c9_catalog_roundtrip c9wcat (newFileDiskManager []) (by decide) (by decide)⟩

/-- C10: a successful `DropTable(name)` changes only the two in-memory
maps.  The disk manager (file AND freelist) and the WAL are exactly the
pre-drop values, the in-memory catalog and table map no longer know the
name, and a reopened `Load` computes its catalog purely from the
unchanged disk image - i.e. the dropped table is re-registered exactly
as the on-disk catalog page records it. -/
theorem c10_drop_table_in_memory_only (fuel : Nat) (kv : BTreeKVStore) (name : GoStr)
    (h : (kvDropTable kv name).1 = GoResult.ok ()) :
    (kvDropTable kv name).2.diskManager = kv.diskManager ∧
    (kvDropTable kv name).2.log = kv.log ∧
    catalogGet (kvDropTable kv name).2.catalog name = none ∧
    alistLookup (kvDropTable kv name).2.tables name = none ∧
    ∀ r, kvLoad fuel (newBTreeKVStore
        (newFileDiskManager (kvDropTable kv name).2.diskManager.file)
        (kvDropTable kv name).2.log) = some r →
      r.2.catalog = (catalogLoad newCatalog (newFileDiskManager kv.diskManager.file)).1 := by
  obtain ⟨cat1, hcat, hkv⟩ := kvDropTable_ok kv name h
  rw [hkv]
  refine ⟨rfl, rfl, ?_, alistLookup_remove _ _, ?_⟩
  · unfold catalogDropTable at hcat
    by_cases hx : (alistLookup kv.catalog.tables name).isSome
    · rw [if_pos hx] at hcat
      injection hcat with hcat1
      rw [← hcat1]
      exact alistLookup_remove _ _
    · rw [if_neg hx] at hcat; cases hcat
  · intro r hr
    exact kvLoad_catalog fuel kv.diskManager.file kv.log r hr

/-- Witness for C10: creating table `t` (degree 2) on a fresh store and
dropping it satisfies every conjunct of the C10 theorem. -/
theorem c10_drop_table_in_memory_only_witness :
    (kvDropTable c10kv [116]).1 = GoResult.ok () ∧
    ((kvDropTable c10kv [116]).2.diskManager = c10kv.diskManager ∧
     (kvDropTable c10kv [116]).2.log = c10kv.log ∧
     catalogGet (kvDropTable c10kv [116]).2.catalog [116] = none ∧
     alistLookup (kvDropTable c10kv [116]).2.tables [116] = none ∧
     ∀ r, kvLoad scnFuel (newBTreeKVStore
         (newFileDiskManager (kvDropTable c10kv [116]).2.diskManager.file)
         (kvDropTable c10kv [116]).2.log) = some r →
       r.2.catalog = (catalogLoad newCatalog (newFileDiskManager c10kv.diskManager.file)).1) :=
  ⟨by decide, c10_drop_table_in_memory_only scnFuel c10kv [116] (by decide)⟩

end LiteGoDB
